import Mathlib

/-!
# PyStele checkpoint store and execution supervisor: a verification development

Shallow embedding of `src/checkpoint/save.py`, `src/checkpoint/restore.py` and
`src/pystele/engine/exec.py`.

Modelling conventions:
* Python `bytes` objects and UTF-8 encoded `str` objects are byte sequences,
  `List Nat` with entries below 256.  Python string comparison (codepoint
  lexicographic) coincides with byte lexicographic order on UTF-8, so key
  sorting is order-isomorphic.
* Python `float` is carried as its IEEE-754 bit pattern (a `Nat`); the
  serializer moves the 8 bytes of the pattern verbatim, so the embedding is
  exact at the byte level.
* Python `dict` is an association list in insertion order, which is what the
  serializer iterates over; logical (finite-map) equality is a coarser
  relation than equality of the embedding.
* SHA-256 (`hashlib.sha256(...).hexdigest()`) is modelled as an injective
  deterministic encoding of the input bytes: the checkpoint design depends
  only on determinism and collision-freeness of the digest.
-/

namespace PyStele

/-! ## Byte-sequence helpers -/

/-- Big-endian fixed-width byte rendering of `n` (low `8*k` bits), as used by
msgpack for its uint16/uint32/uint64/int16/... payloads. -/
def beBytes : Nat → Nat → List Nat
  | 0, _ => []
  | k + 1, n => (n / 2 ^ (8 * k)) % 256 :: beBytes k n

/-- Read `k` big-endian bytes, returning the value and the unconsumed tail. -/
def readBE : Nat → List Nat → Option (Nat × List Nat)
  | 0, bs => some (0, bs)
  | _ + 1, [] => none
  | k + 1, b :: bs =>
    (readBE k bs).map (fun p => (b % 256 * 2 ^ (8 * k) + p.1, p.2))

theorem beBytes_length (k n : Nat) : (beBytes k n).length = k := by
  induction k generalizing n with
  | zero => rfl
  | succ k ih => simp [beBytes, ih]

theorem readBE_beBytes (k : Nat) (n : Nat) (rest : List Nat) :
    readBE k (beBytes k n ++ rest) = some (n % 2 ^ (8 * k), rest) := by
  induction k generalizing n with
  | zero => simp [beBytes, readBE, Nat.mod_one]
  | succ k ih =>
    rw [beBytes, List.cons_append, readBE, ih]
    simp only [Option.map_some']
    have h1 : n / 2 ^ (8 * k) % 256 % 256 = n / 2 ^ (8 * k) % 256 :=
      Nat.mod_mod_of_dvd _ dvd_rfl
    have hmod : n % 2 ^ (8 * (k+1)) =
        n % 2 ^ (8 * k) + 2 ^ (8 * k) * (n / 2 ^ (8 * k) % 256) := by
      have hpow : (2:Nat) ^ (8 * (k+1)) = 2 ^ (8 * k) * 256 := by
        rw [Nat.mul_succ, pow_add]; norm_num
      rw [hpow, Nat.mod_mul]
    rw [h1, hmod]
    exact congrArg some (Prod.ext (by ring) rfl)

theorem readBE_beBytes_of_lt (k : Nat) (n : Nat) (h : n < 2 ^ (8 * k))
    (rest : List Nat) : readBE k (beBytes k n ++ rest) = some (n, rest) := by
  rw [readBE_beBytes, Nat.mod_eq_of_lt h]

theorem takeWhile_append_all {p : Nat → Bool} {xs ys : List Nat}
    (h : ∀ x ∈ xs, p x) : (xs ++ ys).takeWhile p = xs ++ ys.takeWhile p := by
  induction xs with
  | nil => simp
  | cons a l ih =>
    simp only [List.cons_append, List.takeWhile_cons, h a (by simp),
      ih (fun x hx => h x (by simp [hx])), if_true]

theorem dropWhile_append_all {p : Nat → Bool} {xs ys : List Nat}
    (h : ∀ x ∈ xs, p x) : (xs ++ ys).dropWhile p = ys.dropWhile p := by
  induction xs with
  | nil => simp
  | cons a l ih =>
    simp only [List.cons_append, List.dropWhile_cons, h a (by simp),
      ih (fun x hx => h x (by simp [hx])), if_true]

/-! ## The digest model

`encNat` renders a natural number as its base-16 digits (lowercase hex bytes)
followed by the terminator byte 103 (the letter after `f`), making the
encoding of a sequence of numbers uniquely decodable, hence injective. -/

/-- Little-endian base-16 digits of `n`, with recursion fuel (structurally
recursive so that concrete digests evaluate inside the kernel). -/
def hexDigitsRev : Nat → Nat → List Nat
  | _, 0 => []
  | 0, _ + 1 => []
  | f + 1, n + 1 => (n + 1) % 16 :: hexDigitsRev f ((n + 1) / 16)

/-- Little-endian base-16 digits of `n`. -/
def hexDigits (n : Nat) : List Nat := hexDigitsRev n n

/-- Value of a little-endian base-16 digit list. -/
def ofHexDigits : List Nat → Nat
  | [] => 0
  | d :: ds => d + 16 * ofHexDigits ds

theorem hexDigitsRev_lt (f n : Nat) : ∀ d ∈ hexDigitsRev f n, d < 16 := by
  induction f generalizing n with
  | zero => cases n <;> simp [hexDigitsRev]
  | succ f ih =>
    cases n with
    | zero => simp [hexDigitsRev]
    | succ m =>
      intro d hd
      rw [hexDigitsRev] at hd
      rcases List.mem_cons.mp hd with rfl | hmem
      · exact Nat.mod_lt _ (by norm_num)
      · exact ih _ d hmem

theorem hexDigits_lt (n : Nat) : ∀ d ∈ hexDigits n, d < 16 :=
  hexDigitsRev_lt n n

theorem ofHexDigits_hexDigitsRev (f n : Nat) (h : n ≤ f) :
    ofHexDigits (hexDigitsRev f n) = n := by
  induction f generalizing n with
  | zero =>
    interval_cases n
    rfl
  | succ f ih =>
    cases n with
    | zero => rfl
    | succ m =>
      rw [hexDigitsRev, ofHexDigits,
        ih _ (by have := Nat.div_lt_self (Nat.succ_pos m) (by norm_num : (1:Nat) < 16); omega)]
      exact Nat.mod_add_div _ _

theorem ofHexDigits_hexDigits (n : Nat) : ofHexDigits (hexDigits n) = n :=
  ofHexDigits_hexDigitsRev n n le_rfl

/-- Lowercase hex digit byte for a digit `d < 16` (`0-9a-f`). -/
def hexChar (d : Nat) : Nat := if d < 10 then 48 + d else 87 + d

/-- Hex digit value of a byte, if it is a lowercase hex digit. -/
def hexVal (b : Nat) : Option Nat :=
  if 48 ≤ b ∧ b ≤ 57 then some (b - 48)
  else if 97 ≤ b ∧ b ≤ 102 then some (b - 87)
  else none

theorem hexVal_hexChar (d : Nat) (h : d < 16) : hexVal (hexChar d) = some d := by
  unfold hexChar hexVal
  by_cases h10 : d < 10
  · rw [if_pos h10, if_pos (by omega)]
    exact congrArg some (by omega)
  · rw [if_neg h10, if_neg (by omega), if_pos (by omega)]
    exact congrArg some (by omega)

theorem hexChar_ne_term (d : Nat) (h : d < 16) : (hexChar d != 103) = true := by
  unfold hexChar
  by_cases h10 : d < 10 <;> simp [h10] <;> omega

/-- A natural number as terminated hex digits. -/
def encNat (n : Nat) : List Nat := (hexDigits n).map hexChar ++ [103]

/-- Hex values of a run of digit bytes, all-or-nothing. -/
def hexVals : List Nat → Option (List Nat)
  | [] => some []
  | b :: bs =>
    match hexVal b, hexVals bs with
    | some d, some ds => some (d :: ds)
    | _, _ => none

/-- Read one terminated hex segment back. -/
def parseNat (bs : List Nat) : Option (Nat × List Nat) :=
  match hexVals (bs.takeWhile (· != 103)), bs.dropWhile (· != 103) with
  | some ds, _ :: rest => some (ofHexDigits ds, rest)
  | _, _ => none

theorem hexVals_map_hexChar (l : List Nat) (h : ∀ d ∈ l, d < 16) :
    hexVals (l.map hexChar) = some l := by
  induction l with
  | nil => rfl
  | cons d ds ih =>
    rw [List.map_cons, hexVals, hexVal_hexChar d (h d (by simp)),
      ih (fun x hx => h x (by simp [hx]))]

theorem parseNat_encNat (n : Nat) (rest : List Nat) :
    parseNat (encNat n ++ rest) = some (n, rest) := by
  have hall : ∀ x ∈ (hexDigits n).map hexChar, (x != 103) = true := by
    intro x hx
    obtain ⟨d, hd, rfl⟩ := List.mem_map.mp hx
    exact hexChar_ne_term d (hexDigits_lt n d hd)
  have hmapM : hexVals ((hexDigits n).map hexChar) = some (hexDigits n) :=
    hexVals_map_hexChar _ (hexDigits_lt n)
  unfold parseNat encNat
  rw [List.append_assoc, List.singleton_append,
    takeWhile_append_all hall, dropWhile_append_all hall]
  simp [List.takeWhile_cons, List.dropWhile_cons, hmapM, ofHexDigits_hexDigits]

theorem encNat_append_inj {a b : Nat} {r1 r2 : List Nat}
    (h : encNat a ++ r1 = encNat b ++ r2) : a = b ∧ r1 = r2 := by
  have ha := parseNat_encNat a r1
  have hb := parseNat_encNat b r2
  rw [h, hb] at ha
  exact ⟨(Prod.mk.injEq .. |>.mp (Option.some.inj ha.symm)).1,
    (Prod.mk.injEq .. |>.mp (Option.some.inj ha.symm)).2⟩

/-- Modelled from the spec: `hashlib.sha256(data).hexdigest()`.  The claims
about the store rely only on SHA-256 being a deterministic function of the
input bytes that is collision-free; the model realises that contract with an
injective hex encoding of the input. -/
def sha256hex (bs : List Nat) : List Nat := bs.flatMap encNat

theorem sha256hex_inj {bs1 bs2 : List Nat}
    (h : sha256hex bs1 = sha256hex bs2) : bs1 = bs2 := by
  induction bs1 generalizing bs2 with
  | nil =>
    cases bs2 with
    | nil => rfl
    | cons b l =>
      exfalso
      simp only [sha256hex, List.flatMap_nil, List.flatMap_cons, encNat] at h
      exact absurd (congrArg List.length h) (by simp; omega)
  | cons a l1 ih =>
    cases bs2 with
    | nil =>
      exfalso
      simp only [sha256hex, List.flatMap_nil, List.flatMap_cons, encNat] at h
      exact absurd (congrArg List.length h) (by simp)
    | cons b l2 =>
      simp only [sha256hex, List.flatMap_cons] at h
      obtain ⟨rfl, htail⟩ := encNat_append_inj h
      rw [ih htail]

/-- Whitespace test used by Python `str.strip`. -/
def isPySpace (b : Nat) : Bool :=
  b == 32 || b == 9 || b == 10 || b == 13 || b == 11 || b == 12

/-- `str.strip()` on a byte sequence: drop leading and trailing whitespace. -/
def stripBytes (bs : List Nat) : List Nat :=
  ((bs.dropWhile isPySpace).reverse.dropWhile isPySpace).reverse

theorem dropWhile_eq_self_of_all {p : Nat → Bool} {bs : List Nat}
    (h : ∀ b ∈ bs, p b = false) : bs.dropWhile p = bs := by
  cases bs with
  | nil => rfl
  | cons a l => simp [List.dropWhile_cons, h a (by simp)]

theorem stripBytes_eq_self {bs : List Nat}
    (h : ∀ b ∈ bs, isPySpace b = false) : stripBytes bs = bs := by
  unfold stripBytes
  rw [dropWhile_eq_self_of_all h,
    dropWhile_eq_self_of_all (fun b hb => h b (List.mem_reverse.mp hb)),
    List.reverse_reverse]

theorem sha256hex_no_space (bs : List Nat) :
    ∀ b ∈ sha256hex bs, isPySpace b = false := by
  intro b hb
  simp only [sha256hex, List.mem_flatMap] at hb
  obtain ⟨n, _, hbn⟩ := hb
  unfold encNat at hbn
  rcases List.mem_append.mp hbn with hmap | hterm
  · obtain ⟨d, hd, rfl⟩ := List.mem_map.mp hmap
    have := hexDigits_lt n d hd
    unfold hexChar
    by_cases h10 : d < 10 <;> simp [h10, isPySpace] <;> omega
  · simp only [List.mem_singleton] at hterm
    subst hterm
    rfl

theorem stripBytes_sha256hex (bs : List Nat) :
    stripBytes (sha256hex bs) = sha256hex bs :=
  stripBytes_eq_self (sha256hex_no_space bs)

/-! ### Length-prefixed sequences of terminated numbers

Used by the model of the dense-array (`.npy`) container. -/

/-- A list of naturals: length, then each entry, all as terminated hex. -/
def encNatList (l : List Nat) : List Nat := encNat l.length ++ l.flatMap encNat

/-- Read `k` consecutive terminated numbers. -/
def parseNats : Nat → List Nat → Option (List Nat × List Nat)
  | 0, bs => some ([], bs)
  | k + 1, bs =>
    match parseNat bs with
    | none => none
    | some (n, r) =>
      match parseNats k r with
      | none => none
      | some (ns, r2) => some (n :: ns, r2)

/-- Read a length-prefixed list of numbers. -/
def parseNatList (bs : List Nat) : Option (List Nat × List Nat) :=
  match parseNat bs with
  | none => none
  | some (k, r) => parseNats k r

theorem parseNats_flatMap_encNat (l : List Nat) (rest : List Nat) :
    parseNats l.length (l.flatMap encNat ++ rest) = some (l, rest) := by
  induction l generalizing rest with
  | nil => simp [parseNats]
  | cons n ns ih =>
    simp only [List.flatMap_cons, List.length_cons, List.append_assoc]
    rw [parseNats]
    simp only [parseNat_encNat, ih]

theorem parseNatList_encNatList (l : List Nat) (rest : List Nat) :
    parseNatList (encNatList l ++ rest) = some (l, rest) := by
  unfold parseNatList encNatList
  rw [List.append_assoc]
  simp only [parseNat_encNat, parseNats_flatMap_encNat]

/-! ## The value model

`src/checkpoint/save.py`: `SAFE_PRIMITIVES = (int, float, bool, str,
type(None), bytes)` plus lists, tuples, text-keyed dicts and NumPy arrays. -/

/-- A CPU-resident dense numeric array: element type descriptor, shape and raw
buffer.  NumPy `ndarray`s are host-resident, so the device test
`str(obj.device) != "cpu"` in `_is_safe` never fires for them and the model
carries no device field. -/
structure NdArray where
  dtype : List Nat
  shape : List Nat
  data : List Nat
deriving DecidableEq, Repr

/-- Python values as the checkpoint code can encounter them.  `pcallable`
stands for any object outside the whitelist (a function, open handle,
generator, user-defined aggregate): `_is_safe` treats them all through its
final `return False` and `msgpack.packb` raises `TypeError` on them. -/
inductive PyValue where
  | pnone : PyValue
  | pbool : Bool → PyValue
  | pint : Int → PyValue
  | pfloat : Nat → PyValue
  | pstr : List Nat → PyValue
  | pbytes : List Nat → PyValue
  | plist : List PyValue → PyValue
  | ptuple : List PyValue → PyValue
  | pdict : List (PyValue × PyValue) → PyValue
  | parray : NdArray → PyValue
  | pcallable : PyValue

/-- `isinstance(k, str)`. -/
def PyValue.isStr : PyValue → Bool
  | .pstr _ => true
  | _ => false

/-- `_is_numpy_array(obj)`. -/
def PyValue.isNdarray : PyValue → Bool
  | .parray _ => true
  | _ => false

mutual

/-- `_is_safe(obj)` from `src/checkpoint/save.py` (lines 36-55): arrays and
primitives are safe, lists and tuples are safe when all members are, dicts
when every key is a `str` and every value is safe; everything else is not.
(The array branch's device check compares `str(obj.device)` with `"cpu"`;
NumPy arrays are CPU-resident so the branch returns `True` for them.) -/
def _is_safe : PyValue → Bool
  | .parray _ => true
  | .pnone => true
  | .pbool _ => true
  | .pint _ => true
  | .pfloat _ => true
  | .pstr _ => true
  | .pbytes _ => true
  | .plist xs => isSafeAll xs
  | .ptuple xs => isSafeAll xs
  | .pdict es => isSafeEntries es
  | .pcallable => false

/-- `all(_is_safe(x) for x in obj)`. -/
def isSafeAll : List PyValue → Bool
  | [] => true
  | x :: xs => _is_safe x && isSafeAll xs

/-- `all(isinstance(k, str) and _is_safe(v) for k, v in obj.items())` — note
the keys are only type-tested, not recursed into. -/
def isSafeEntries : List (PyValue × PyValue) → Bool
  | [] => true
  | (k, v) :: es => k.isStr && _is_safe v && isSafeEntries es

end

/-! ## The msgpack codec

Model of `msgpack.packb(obj, use_bin_type=True)` and
`msgpack.unpackb(data, raw=False)` (defaults otherwise: `use_list=True`, so
arrays — including packed tuples — come back as lists, and dict keys are
packed in iteration order, unsorted).  `none` models the exceptions the
library raises: `TypeError` for unsupported objects (NumPy arrays, callables)
and `OverflowError`/`ValueError` for out-of-range integers and lengths. -/

/-- Integer encoding: positive fixint, uint8/16/32/64, negative fixint,
int8/16/32/64; integers outside `[-2^63, 2^64)` raise `OverflowError`. -/
def packInt (i : Int) : Option (List Nat) :=
  if 0 ≤ i then
    let n := i.toNat
    if n < 0x80 then some [n]
    else if n < 0x100 then some [0xcc, n]
    else if n < 0x10000 then some (0xcd :: beBytes 2 n)
    else if n < 0x100000000 then some (0xce :: beBytes 4 n)
    else if n < 0x10000000000000000 then some (0xcf :: beBytes 8 n)
    else none
  else
    if -32 ≤ i then some [(256 + i).toNat]
    else if -128 ≤ i then some [0xd0, (256 + i).toNat]
    else if -32768 ≤ i then some (0xd1 :: beBytes 2 (65536 + i).toNat)
    else if -2147483648 ≤ i then
      some (0xd2 :: beBytes 4 (4294967296 + i).toNat)
    else if -9223372036854775808 ≤ i then
      some (0xd3 :: beBytes 8 (18446744073709551616 + i).toNat)
    else none

/-- str framing (with `use_bin_type=True` text uses the str family):
fixstr, str8, str16, str32. -/
def strHeader (L : Nat) : Option (List Nat) :=
  if L < 32 then some [0xa0 + L]
  else if L < 0x100 then some [0xd9, L]
  else if L < 0x10000 then some (0xda :: beBytes 2 L)
  else if L < 0x100000000 then some (0xdb :: beBytes 4 L)
  else none

/-- bytes framing: bin8, bin16, bin32. -/
def binHeader (L : Nat) : Option (List Nat) :=
  if L < 0x100 then some [0xc4, L]
  else if L < 0x10000 then some (0xc5 :: beBytes 2 L)
  else if L < 0x100000000 then some (0xc6 :: beBytes 4 L)
  else none

/-- array framing: fixarray, array16, array32. -/
def arrayHeader (L : Nat) : Option (List Nat) :=
  if L < 16 then some [0x90 + L]
  else if L < 0x10000 then some (0xdc :: beBytes 2 L)
  else if L < 0x100000000 then some (0xdd :: beBytes 4 L)
  else none

/-- map framing: fixmap, map16, map32. -/
def mapHeader (L : Nat) : Option (List Nat) :=
  if L < 16 then some [0x80 + L]
  else if L < 0x10000 then some (0xde :: beBytes 2 L)
  else if L < 0x100000000 then some (0xdf :: beBytes 4 L)
  else none

mutual

/-- `msgpack.packb(obj, use_bin_type=True)`.  Floats are packed as float64
(marker 0xcb and the 8 bytes of the IEEE-754 pattern); tuples are packed as
arrays, indistinguishably from lists; dict entries are packed in iteration
order.  NumPy arrays and callables raise `TypeError` (`none`). -/
def packb : PyValue → Option (List Nat)
  | .pnone => some [0xc0]
  | .pbool b => some [if b then 0xc3 else 0xc2]
  | .pint i => packInt i
  | .pfloat bits =>
    if bits < 0x10000000000000000 then some (0xcb :: beBytes 8 bits) else none
  | .pstr s => (strHeader s.length).map (· ++ s)
  | .pbytes b => (binHeader b.length).map (· ++ b)
  | .plist xs =>
    (arrayHeader xs.length).bind (fun h => (packbList xs).map (h ++ ·))
  | .ptuple xs =>
    (arrayHeader xs.length).bind (fun h => (packbList xs).map (h ++ ·))
  | .pdict es =>
    (mapHeader es.length).bind (fun h => (packbEntries es).map (h ++ ·))
  | .parray _ => none
  | .pcallable => none

def packbList : List PyValue → Option (List Nat)
  | [] => some []
  | x :: xs =>
    match packb x, packbList xs with
    | some a, some b => some (a ++ b)
    | _, _ => none

def packbEntries : List (PyValue × PyValue) → Option (List Nat)
  | [] => some []
  | (k, v) :: es =>
    match packb k, packb v, packbEntries es with
    | some a, some b, some c => some (a ++ b ++ c)
    | _, _, _ => none

end

/-- Read `k` raw payload bytes. -/
def readN (k : Nat) (bs : List Nat) : Option (List Nat × List Nat) :=
  if k ≤ bs.length then some (bs.take k, bs.drop k) else none

mutual

/-- One step of `msgpack.unpackb(data, raw=False)` (defaults: `use_list=True`):
reads one object and returns the unconsumed tail.  Arrays always come back as
Python lists, strings as text, maps in encounter order.  The fuel argument
only bounds recursion so the model is structurally recursive; `unpackb` below
supplies enough for any input.  `none` covers the library's error outcomes
(truncated input, the invalid marker 0xc1) and the markers the saver never
emits (float32, ext/timestamp families). -/
def unpackVal : Nat → List Nat → Option (PyValue × List Nat)
  | 0, _ => none
  | _ + 1, [] => none
  | fuel + 1, b :: bs =>
    if b < 0x80 then some (.pint b, bs)
    else if b < 0x90 then
      (unpackMapN fuel (b - 0x80) bs).map (fun p => (.pdict p.1, p.2))
    else if b < 0xa0 then
      (unpackArrayN fuel (b - 0x90) bs).map (fun p => (.plist p.1, p.2))
    else if b < 0xc0 then
      (readN (b - 0xa0) bs).map (fun p => (.pstr p.1, p.2))
    else if b = 0xc0 then some (.pnone, bs)
    else if b = 0xc2 then some (.pbool false, bs)
    else if b = 0xc3 then some (.pbool true, bs)
    else if b = 0xc4 then
      (readBE 1 bs).bind (fun p => (readN p.1 p.2).map (fun q => (.pbytes q.1, q.2)))
    else if b = 0xc5 then
      (readBE 2 bs).bind (fun p => (readN p.1 p.2).map (fun q => (.pbytes q.1, q.2)))
    else if b = 0xc6 then
      (readBE 4 bs).bind (fun p => (readN p.1 p.2).map (fun q => (.pbytes q.1, q.2)))
    else if b = 0xcb then
      (readBE 8 bs).map (fun p => (.pfloat p.1, p.2))
    else if b = 0xcc then
      (readBE 1 bs).map (fun p => (.pint p.1, p.2))
    else if b = 0xcd then
      (readBE 2 bs).map (fun p => (.pint p.1, p.2))
    else if b = 0xce then
      (readBE 4 bs).map (fun p => (.pint p.1, p.2))
    else if b = 0xcf then
      (readBE 8 bs).map (fun p => (.pint p.1, p.2))
    else if b = 0xd0 then
      (readBE 1 bs).map (fun p =>
        (.pint (if p.1 < 0x80 then (p.1 : Int) else (p.1 : Int) - 0x100), p.2))
    else if b = 0xd1 then
      (readBE 2 bs).map (fun p =>
        (.pint (if p.1 < 0x8000 then (p.1 : Int) else (p.1 : Int) - 0x10000), p.2))
    else if b = 0xd2 then
      (readBE 4 bs).map (fun p =>
        (.pint (if p.1 < 0x80000000 then (p.1 : Int)
          else (p.1 : Int) - 0x100000000), p.2))
    else if b = 0xd3 then
      (readBE 8 bs).map (fun p =>
        (.pint (if p.1 < 0x8000000000000000 then (p.1 : Int)
          else (p.1 : Int) - 0x10000000000000000), p.2))
    else if b = 0xd9 then
      (readBE 1 bs).bind (fun p => (readN p.1 p.2).map (fun q => (.pstr q.1, q.2)))
    else if b = 0xda then
      (readBE 2 bs).bind (fun p => (readN p.1 p.2).map (fun q => (.pstr q.1, q.2)))
    else if b = 0xdb then
      (readBE 4 bs).bind (fun p => (readN p.1 p.2).map (fun q => (.pstr q.1, q.2)))
    else if b = 0xdc then
      (readBE 2 bs).bind (fun p =>
        (unpackArrayN fuel p.1 p.2).map (fun q => (.plist q.1, q.2)))
    else if b = 0xdd then
      (readBE 4 bs).bind (fun p =>
        (unpackArrayN fuel p.1 p.2).map (fun q => (.plist q.1, q.2)))
    else if b = 0xde then
      (readBE 2 bs).bind (fun p =>
        (unpackMapN fuel p.1 p.2).map (fun q => (.pdict q.1, q.2)))
    else if b = 0xdf then
      (readBE 4 bs).bind (fun p =>
        (unpackMapN fuel p.1 p.2).map (fun q => (.pdict q.1, q.2)))
    else if 0xe0 ≤ b ∧ b ≤ 0xff then some (.pint ((b : Int) - 0x100), bs)
    else none

def unpackArrayN : Nat → Nat → List Nat → Option (List PyValue × List Nat)
  | _, 0, bs => some ([], bs)
  | 0, _ + 1, _ => none
  | fuel + 1, k + 1, bs =>
    (unpackVal fuel bs).bind (fun p =>
      (unpackArrayN fuel k p.2).map (fun q => (p.1 :: q.1, q.2)))

def unpackMapN : Nat → Nat → List Nat → Option (List (PyValue × PyValue) × List Nat)
  | _, 0, bs => some ([], bs)
  | 0, _ + 1, _ => none
  | fuel + 1, k + 1, bs =>
    (unpackVal fuel bs).bind (fun pk =>
      (unpackVal fuel pk.2).bind (fun pv =>
        (unpackMapN fuel k pv.2).map (fun q => ((pk.1, pv.1) :: q.1, q.2))))

end

/-- `msgpack.unpackb(data, raw=False)`: exactly one object that consumes the
whole input (`ExtraData` otherwise). -/
def unpackb (bs : List Nat) : Option PyValue :=
  match unpackVal (2 * bs.length + 2) bs with
  | some (v, []) => some v
  | _ => none

mutual

/-- The image of a value after a msgpack round trip at the type level: tuples
collapse to lists (packed as arrays, unpacked with `use_list=True`). -/
def pyErase : PyValue → PyValue
  | .plist xs => .plist (pyEraseList xs)
  | .ptuple xs => .plist (pyEraseList xs)
  | .pdict es => .pdict (pyEraseEntries es)
  | .pnone => .pnone
  | .pbool b => .pbool b
  | .pint i => .pint i
  | .pfloat f => .pfloat f
  | .pstr s => .pstr s
  | .pbytes b => .pbytes b
  | .parray a => .parray a
  | .pcallable => .pcallable

def pyEraseList : List PyValue → List PyValue
  | [] => []
  | x :: xs => pyErase x :: pyEraseList xs

def pyEraseEntries : List (PyValue × PyValue) → List (PyValue × PyValue)
  | [] => []
  | (k, v) :: es => (pyErase k, pyErase v) :: pyEraseEntries es

end

mutual

/-- `true` when no tuple occurs anywhere in the value. -/
def tupleFree : PyValue → Bool
  | .plist xs => tupleFreeList xs
  | .ptuple _ => false
  | .pdict es => tupleFreeEntries es
  | _ => true

def tupleFreeList : List PyValue → Bool
  | [] => true
  | x :: xs => tupleFree x && tupleFreeList xs

def tupleFreeEntries : List (PyValue × PyValue) → Bool
  | [] => true
  | (k, v) :: es => tupleFree k && tupleFree v && tupleFreeEntries es

end

mutual

/-- Decoder fuel needed to re-read a packed value. -/
def msgNeed : PyValue → Nat
  | .plist xs => 1 + msgNeedArr xs
  | .ptuple xs => 1 + msgNeedArr xs
  | .pdict es => 1 + msgNeedMap es
  | _ => 1

def msgNeedArr : List PyValue → Nat
  | [] => 0
  | x :: xs => 1 + max (msgNeed x) (msgNeedArr xs)

def msgNeedMap : List (PyValue × PyValue) → Nat
  | [] => 0
  | (k, v) :: es => 1 + max (msgNeed k) (max (msgNeed v) (msgNeedMap es))

end

/-! ### Decoder dispatch lemmas -/

theorem readN_exact (s rest : List Nat) : readN s.length (s ++ rest) = some (s, rest) := by
  unfold readN
  rw [if_pos (by simp)]
  rw [List.take_left, List.drop_left]

theorem readBE_one (b : Nat) (bs : List Nat) :
    readBE 1 (b :: bs) = some (b % 256, bs) := by
  simp [readBE]

theorem unpackVal_fixpos (f b : Nat) (hb : b < 0x80) (bs : List Nat) :
    unpackVal (f + 1) (b :: bs) = some (.pint b, bs) := by
  simp only [unpackVal]
  rw [if_pos hb]

theorem unpackVal_fixmap (f b : Nat) (h1 : 0x80 ≤ b) (h2 : b < 0x90) (bs : List Nat) :
    unpackVal (f + 1) (b :: bs) =
      (unpackMapN f (b - 0x80) bs).map (fun p => (.pdict p.1, p.2)) := by
  simp only [unpackVal]
  rw [if_neg (by omega), if_pos h2]

theorem unpackVal_fixarray (f b : Nat) (h1 : 0x90 ≤ b) (h2 : b < 0xa0) (bs : List Nat) :
    unpackVal (f + 1) (b :: bs) =
      (unpackArrayN f (b - 0x90) bs).map (fun p => (.plist p.1, p.2)) := by
  simp only [unpackVal]
  rw [if_neg (by omega), if_neg (by omega), if_pos h2]

theorem unpackVal_fixstr (f b : Nat) (h1 : 0xa0 ≤ b) (h2 : b < 0xc0) (bs : List Nat) :
    unpackVal (f + 1) (b :: bs) =
      (readN (b - 0xa0) bs).map (fun p => (.pstr p.1, p.2)) := by
  simp only [unpackVal]
  rw [if_neg (by omega), if_neg (by omega), if_neg (by omega), if_pos h2]

theorem unpackVal_negfix (f b : Nat) (h1 : 0xe0 ≤ b) (h2 : b ≤ 0xff) (bs : List Nat) :
    unpackVal (f + 1) (b :: bs) = some (.pint ((b : Int) - 0x100), bs) := by
  simp only [unpackVal]
  repeat rw [if_neg (by omega)]
  rw [if_pos ⟨h1, h2⟩]

theorem unpackVal_c0 (f : Nat) (bs : List Nat) :
    unpackVal (f + 1) (0xc0 :: bs) = some (.pnone, bs) := rfl

theorem unpackVal_c2 (f : Nat) (bs : List Nat) :
    unpackVal (f + 1) (0xc2 :: bs) = some (.pbool false, bs) := rfl

theorem unpackVal_c3 (f : Nat) (bs : List Nat) :
    unpackVal (f + 1) (0xc3 :: bs) = some (.pbool true, bs) := rfl

theorem unpackVal_c4 (f : Nat) (bs : List Nat) :
    unpackVal (f + 1) (0xc4 :: bs) =
      (readBE 1 bs).bind
        (fun p => (readN p.1 p.2).map (fun q => (.pbytes q.1, q.2))) := rfl

theorem unpackVal_c5 (f : Nat) (bs : List Nat) :
    unpackVal (f + 1) (0xc5 :: bs) =
      (readBE 2 bs).bind
        (fun p => (readN p.1 p.2).map (fun q => (.pbytes q.1, q.2))) := rfl

theorem unpackVal_c6 (f : Nat) (bs : List Nat) :
    unpackVal (f + 1) (0xc6 :: bs) =
      (readBE 4 bs).bind
        (fun p => (readN p.1 p.2).map (fun q => (.pbytes q.1, q.2))) := rfl

theorem unpackVal_cb (f : Nat) (bs : List Nat) :
    unpackVal (f + 1) (0xcb :: bs) =
      (readBE 8 bs).map (fun p => (.pfloat p.1, p.2)) := rfl

theorem unpackVal_cc (f : Nat) (bs : List Nat) :
    unpackVal (f + 1) (0xcc :: bs) =
      (readBE 1 bs).map (fun p => (.pint p.1, p.2)) := rfl

theorem unpackVal_cd (f : Nat) (bs : List Nat) :
    unpackVal (f + 1) (0xcd :: bs) =
      (readBE 2 bs).map (fun p => (.pint p.1, p.2)) := rfl

theorem unpackVal_ce (f : Nat) (bs : List Nat) :
    unpackVal (f + 1) (0xce :: bs) =
      (readBE 4 bs).map (fun p => (.pint p.1, p.2)) := rfl

theorem unpackVal_cf (f : Nat) (bs : List Nat) :
    unpackVal (f + 1) (0xcf :: bs) =
      (readBE 8 bs).map (fun p => (.pint p.1, p.2)) := rfl

theorem unpackVal_d0 (f : Nat) (bs : List Nat) :
    unpackVal (f + 1) (0xd0 :: bs) =
      (readBE 1 bs).map (fun p =>
        (.pint (if p.1 < 0x80 then (p.1 : Int) else (p.1 : Int) - 0x100), p.2)) := rfl

theorem unpackVal_d1 (f : Nat) (bs : List Nat) :
    unpackVal (f + 1) (0xd1 :: bs) =
      (readBE 2 bs).map (fun p =>
        (.pint (if p.1 < 0x8000 then (p.1 : Int) else (p.1 : Int) - 0x10000), p.2)) := rfl

theorem unpackVal_d2 (f : Nat) (bs : List Nat) :
    unpackVal (f + 1) (0xd2 :: bs) =
      (readBE 4 bs).map (fun p =>
        (.pint (if p.1 < 0x80000000 then (p.1 : Int)
          else (p.1 : Int) - 0x100000000), p.2)) := rfl

theorem unpackVal_d3 (f : Nat) (bs : List Nat) :
    unpackVal (f + 1) (0xd3 :: bs) =
      (readBE 8 bs).map (fun p =>
        (.pint (if p.1 < 0x8000000000000000 then (p.1 : Int)
          else (p.1 : Int) - 0x10000000000000000), p.2)) := rfl

theorem unpackVal_d9 (f : Nat) (bs : List Nat) :
    unpackVal (f + 1) (0xd9 :: bs) =
      (readBE 1 bs).bind
        (fun p => (readN p.1 p.2).map (fun q => (.pstr q.1, q.2))) := rfl

theorem unpackVal_da (f : Nat) (bs : List Nat) :
    unpackVal (f + 1) (0xda :: bs) =
      (readBE 2 bs).bind
        (fun p => (readN p.1 p.2).map (fun q => (.pstr q.1, q.2))) := rfl

theorem unpackVal_db (f : Nat) (bs : List Nat) :
    unpackVal (f + 1) (0xdb :: bs) =
      (readBE 4 bs).bind
        (fun p => (readN p.1 p.2).map (fun q => (.pstr q.1, q.2))) := rfl

theorem unpackVal_dc (f : Nat) (bs : List Nat) :
    unpackVal (f + 1) (0xdc :: bs) =
      (readBE 2 bs).bind (fun p =>
        (unpackArrayN f p.1 p.2).map (fun q => (.plist q.1, q.2))) := rfl

theorem unpackVal_dd (f : Nat) (bs : List Nat) :
    unpackVal (f + 1) (0xdd :: bs) =
      (readBE 4 bs).bind (fun p =>
        (unpackArrayN f p.1 p.2).map (fun q => (.plist q.1, q.2))) := rfl

theorem unpackVal_de (f : Nat) (bs : List Nat) :
    unpackVal (f + 1) (0xde :: bs) =
      (readBE 2 bs).bind (fun p =>
        (unpackMapN f p.1 p.2).map (fun q => (.pdict q.1, q.2))) := rfl

theorem unpackVal_df (f : Nat) (bs : List Nat) :
    unpackVal (f + 1) (0xdf :: bs) =
      (readBE 4 bs).bind (fun p =>
        (unpackMapN f p.1 p.2).map (fun q => (.pdict q.1, q.2))) := rfl

theorem msgNeed_pos (v : PyValue) : 1 ≤ msgNeed v := by
  cases v <;> simp [msgNeed]

theorem unpackArrayN_zero (fuel : Nat) (bs : List Nat) :
    unpackArrayN fuel 0 bs = some ([], bs) := by
  cases fuel <;> rfl

theorem unpackMapN_zero (fuel : Nat) (bs : List Nat) :
    unpackMapN fuel 0 bs = some ([], bs) := by
  cases fuel <;> rfl

theorem unpackArrayN_succ (f k : Nat) (bs : List Nat) :
    unpackArrayN (f + 1) (k + 1) bs =
      (unpackVal f bs).bind (fun p =>
        (unpackArrayN f k p.2).map (fun q => (p.1 :: q.1, q.2))) := rfl

theorem unpackMapN_succ (f k : Nat) (bs : List Nat) :
    unpackMapN (f + 1) (k + 1) bs =
      (unpackVal f bs).bind (fun pk =>
        (unpackVal f pk.2).bind (fun pv =>
          (unpackMapN f k pv.2).map (fun q => ((pk.1, pv.1) :: q.1, q.2)))) := rfl

/-! ### The msgpack round trip

Decoding an encoded value returns it with tuples collapsed to lists and the
trailing bytes untouched. -/

mutual

theorem unpackVal_packb : ∀ (v : PyValue) (bs rest : List Nat) (fuel : Nat),
    packb v = some bs → msgNeed v ≤ fuel →
    unpackVal fuel (bs ++ rest) = some (pyErase v, rest)
  | .pnone, bs, rest, fuel, hp, hf => by
    obtain ⟨f, rfl⟩ : ∃ f, fuel = f + 1 := ⟨fuel - 1, by simp [msgNeed] at hf; omega⟩
    injection hp with hp
    subst hp
    exact unpackVal_c0 f rest
  | .pbool b, bs, rest, fuel, hp, hf => by
    obtain ⟨f, rfl⟩ : ∃ f, fuel = f + 1 := ⟨fuel - 1, by simp [msgNeed] at hf; omega⟩
    injection hp with hp
    subst hp
    cases b
    · exact unpackVal_c2 f rest
    · exact unpackVal_c3 f rest
  | .pint i, bs, rest, fuel, hp, hf => by
    obtain ⟨f, rfl⟩ : ∃ f, fuel = f + 1 := ⟨fuel - 1, by simp [msgNeed] at hf; omega⟩
    simp only [packb, packInt] at hp
    simp only [pyErase]
    split_ifs at hp with hpos h1 h2 h3 h4 h5 hn1 hn2 hn3 hn4 hn5
    · injection hp with hp; subst hp
      simp only [List.cons_append, List.nil_append]
      rw [unpackVal_fixpos f _ h1]
      have : ((i.toNat : Nat) : Int) = i := by omega
      rw [this]
    · injection hp with hp; subst hp
      simp only [List.cons_append, List.nil_append]
      rw [unpackVal_cc, readBE_one]
      simp only [Option.map_some']
      have : ((i.toNat % 256 : Nat) : Int) = i := by
        rw [Nat.mod_eq_of_lt h2]; omega
      rw [this]
    · injection hp with hp; subst hp
      simp only [List.cons_append, List.nil_append, List.append_assoc]
      rw [unpackVal_cd, readBE_beBytes_of_lt 2 _ (by norm_num; omega)]
      simp only [Option.map_some']
      have : ((i.toNat : Nat) : Int) = i := by omega
      rw [this]
    · injection hp with hp; subst hp
      simp only [List.cons_append, List.nil_append, List.append_assoc]
      rw [unpackVal_ce, readBE_beBytes_of_lt 4 _ (by norm_num; omega)]
      simp only [Option.map_some']
      have : ((i.toNat : Nat) : Int) = i := by omega
      rw [this]
    · injection hp with hp; subst hp
      simp only [List.cons_append, List.nil_append, List.append_assoc]
      rw [unpackVal_cf, readBE_beBytes_of_lt 8 _ (by norm_num; omega)]
      simp only [Option.map_some']
      have : ((i.toNat : Nat) : Int) = i := by omega
      rw [this]
    · injection hp with hp; subst hp
      simp only [List.cons_append, List.nil_append]
      rw [unpackVal_negfix f _ (by omega) (by omega)]
      have : (((256 + i).toNat : Nat) : Int) - 0x100 = i := by omega
      rw [this]
    · injection hp with hp; subst hp
      simp only [List.cons_append, List.nil_append]
      rw [unpackVal_d0, readBE_one]
      simp only [Option.map_some']
      rw [if_neg (by omega)]
      have : (((256 + i).toNat % 256 : Nat) : Int) - 0x100 = i := by
        rw [Nat.mod_eq_of_lt (by omega)]; omega
      rw [this]
    · injection hp with hp; subst hp
      simp only [List.cons_append, List.nil_append, List.append_assoc]
      rw [unpackVal_d1, readBE_beBytes_of_lt 2 _ (by norm_num; omega)]
      simp only [Option.map_some']
      rw [if_neg (by omega)]
      have : (((65536 + i).toNat : Nat) : Int) - 0x10000 = i := by omega
      rw [this]
    · injection hp with hp; subst hp
      simp only [List.cons_append, List.nil_append, List.append_assoc]
      rw [unpackVal_d2, readBE_beBytes_of_lt 4 _ (by norm_num; omega)]
      simp only [Option.map_some']
      rw [if_neg (by omega)]
      have : (((4294967296 + i).toNat : Nat) : Int) - 0x100000000 = i := by omega
      rw [this]
    · injection hp with hp; subst hp
      simp only [List.cons_append, List.nil_append, List.append_assoc]
      rw [unpackVal_d3, readBE_beBytes_of_lt 8 _ (by norm_num; omega)]
      simp only [Option.map_some']
      rw [if_neg (by omega)]
      have : (((18446744073709551616 + i).toNat : Nat) : Int) -
          0x10000000000000000 = i := by omega
      rw [this]
  | .pfloat bits, bs, rest, fuel, hp, hf => by
    obtain ⟨f, rfl⟩ : ∃ f, fuel = f + 1 := ⟨fuel - 1, by simp [msgNeed] at hf; omega⟩
    simp only [packb] at hp
    split_ifs at hp with h
    injection hp with hp; subst hp
    simp only [List.cons_append, List.nil_append, List.append_assoc]
    rw [unpackVal_cb, readBE_beBytes_of_lt 8 _ (by norm_num; omega)]
    rfl
  | .pstr s, bs, rest, fuel, hp, hf => by
    obtain ⟨f, rfl⟩ : ∃ f, fuel = f + 1 := ⟨fuel - 1, by simp [msgNeed] at hf; omega⟩
    simp only [packb, strHeader] at hp
    split_ifs at hp with h1 h2 h3 h4
    · simp only [Option.map_some'] at hp
      injection hp with hp; subst hp
      simp only [List.cons_append, List.nil_append, List.append_assoc]
      rw [unpackVal_fixstr f _ (by omega) (by omega)]
      have he : 0xa0 + s.length - 0xa0 = s.length := by omega
      rw [he, readN_exact]
      rfl
    · simp only [Option.map_some'] at hp
      injection hp with hp; subst hp
      simp only [List.cons_append, List.nil_append, List.append_assoc]
      rw [unpackVal_d9, readBE_one]
      simp only [Option.some_bind]
      rw [Nat.mod_eq_of_lt h2, readN_exact]
      rfl
    · simp only [Option.map_some'] at hp
      injection hp with hp; subst hp
      simp only [List.cons_append, List.nil_append, List.append_assoc]
      rw [unpackVal_da, readBE_beBytes_of_lt 2 _ (by norm_num; omega)]
      simp only [Option.some_bind]
      rw [readN_exact]
      rfl
    · simp only [Option.map_some'] at hp
      injection hp with hp; subst hp
      simp only [List.cons_append, List.nil_append, List.append_assoc]
      rw [unpackVal_db, readBE_beBytes_of_lt 4 _ (by norm_num; omega)]
      simp only [Option.some_bind]
      rw [readN_exact]
      rfl
    · simp at hp
  | .pbytes b, bs, rest, fuel, hp, hf => by
    obtain ⟨f, rfl⟩ : ∃ f, fuel = f + 1 := ⟨fuel - 1, by simp [msgNeed] at hf; omega⟩
    simp only [packb, binHeader] at hp
    split_ifs at hp with h1 h2 h3
    · simp only [Option.map_some'] at hp
      injection hp with hp; subst hp
      simp only [List.cons_append, List.nil_append, List.append_assoc]
      rw [unpackVal_c4, readBE_one]
      simp only [Option.some_bind]
      rw [Nat.mod_eq_of_lt h1, readN_exact]
      rfl
    · simp only [Option.map_some'] at hp
      injection hp with hp; subst hp
      simp only [List.cons_append, List.nil_append, List.append_assoc]
      rw [unpackVal_c5, readBE_beBytes_of_lt 2 _ (by norm_num; omega)]
      simp only [Option.some_bind]
      rw [readN_exact]
      rfl
    · simp only [Option.map_some'] at hp
      injection hp with hp; subst hp
      simp only [List.cons_append, List.nil_append, List.append_assoc]
      rw [unpackVal_c6, readBE_beBytes_of_lt 4 _ (by norm_num; omega)]
      simp only [Option.some_bind]
      rw [readN_exact]
      rfl
    · simp at hp
  | .plist xs, bs, rest, fuel, hp, hf => by
    simp only [msgNeed] at hf
    obtain ⟨f, rfl⟩ : ∃ f, fuel = f + 1 := ⟨fuel - 1, by omega⟩
    simp only [packb] at hp
    cases hbody : packbList xs with
    | none => rw [hbody] at hp; simp at hp
    | some body =>
      rw [hbody] at hp
      simp only [pyErase]
      simp only [arrayHeader] at hp
      split_ifs at hp with h1 h2 h3
      · simp only [Option.some_bind, Option.map_some'] at hp
        injection hp with hp; subst hp
        simp only [List.cons_append, List.nil_append, List.append_assoc]
        rw [unpackVal_fixarray f _ (by omega) (by omega)]
        have he : 0x90 + xs.length - 0x90 = xs.length := by omega
        rw [he, unpackArrayN_packbList xs body rest f hbody (by omega)]
        rfl
      · simp only [Option.some_bind, Option.map_some'] at hp
        injection hp with hp; subst hp
        simp only [List.cons_append, List.nil_append, List.append_assoc]
        rw [unpackVal_dc, readBE_beBytes_of_lt 2 _ (by norm_num; omega)]
        simp only [Option.some_bind]
        rw [unpackArrayN_packbList xs body rest f hbody (by omega)]
        rfl
      · simp only [Option.some_bind, Option.map_some'] at hp
        injection hp with hp; subst hp
        simp only [List.cons_append, List.nil_append, List.append_assoc]
        rw [unpackVal_dd, readBE_beBytes_of_lt 4 _ (by norm_num; omega)]
        simp only [Option.some_bind]
        rw [unpackArrayN_packbList xs body rest f hbody (by omega)]
        rfl
      · simp at hp
  | .ptuple xs, bs, rest, fuel, hp, hf => by
    simp only [msgNeed] at hf
    obtain ⟨f, rfl⟩ : ∃ f, fuel = f + 1 := ⟨fuel - 1, by omega⟩
    simp only [packb] at hp
    cases hbody : packbList xs with
    | none => rw [hbody] at hp; simp at hp
    | some body =>
      rw [hbody] at hp
      simp only [pyErase]
      simp only [arrayHeader] at hp
      split_ifs at hp with h1 h2 h3
      · simp only [Option.some_bind, Option.map_some'] at hp
        injection hp with hp; subst hp
        simp only [List.cons_append, List.nil_append, List.append_assoc]
        rw [unpackVal_fixarray f _ (by omega) (by omega)]
        have he : 0x90 + xs.length - 0x90 = xs.length := by omega
        rw [he, unpackArrayN_packbList xs body rest f hbody (by omega)]
        rfl
      · simp only [Option.some_bind, Option.map_some'] at hp
        injection hp with hp; subst hp
        simp only [List.cons_append, List.nil_append, List.append_assoc]
        rw [unpackVal_dc, readBE_beBytes_of_lt 2 _ (by norm_num; omega)]
        simp only [Option.some_bind]
        rw [unpackArrayN_packbList xs body rest f hbody (by omega)]
        rfl
      · simp only [Option.some_bind, Option.map_some'] at hp
        injection hp with hp; subst hp
        simp only [List.cons_append, List.nil_append, List.append_assoc]
        rw [unpackVal_dd, readBE_beBytes_of_lt 4 _ (by norm_num; omega)]
        simp only [Option.some_bind]
        rw [unpackArrayN_packbList xs body rest f hbody (by omega)]
        rfl
      · simp at hp
  | .pdict es, bs, rest, fuel, hp, hf => by
    simp only [msgNeed] at hf
    obtain ⟨f, rfl⟩ : ∃ f, fuel = f + 1 := ⟨fuel - 1, by omega⟩
    simp only [packb] at hp
    cases hbody : packbEntries es with
    | none => rw [hbody] at hp; simp at hp
    | some body =>
      rw [hbody] at hp
      simp only [pyErase]
      simp only [mapHeader] at hp
      split_ifs at hp with h1 h2 h3
      · simp only [Option.some_bind, Option.map_some'] at hp
        injection hp with hp; subst hp
        simp only [List.cons_append, List.nil_append, List.append_assoc]
        rw [unpackVal_fixmap f _ (by omega) (by omega)]
        have he : 0x80 + es.length - 0x80 = es.length := by omega
        rw [he, unpackMapN_packbEntries es body rest f hbody (by omega)]
        rfl
      · simp only [Option.some_bind, Option.map_some'] at hp
        injection hp with hp; subst hp
        simp only [List.cons_append, List.nil_append, List.append_assoc]
        rw [unpackVal_de, readBE_beBytes_of_lt 2 _ (by norm_num; omega)]
        simp only [Option.some_bind]
        rw [unpackMapN_packbEntries es body rest f hbody (by omega)]
        rfl
      · simp only [Option.some_bind, Option.map_some'] at hp
        injection hp with hp; subst hp
        simp only [List.cons_append, List.nil_append, List.append_assoc]
        rw [unpackVal_df, readBE_beBytes_of_lt 4 _ (by norm_num; omega)]
        simp only [Option.some_bind]
        rw [unpackMapN_packbEntries es body rest f hbody (by omega)]
        rfl
      · simp at hp
  | .parray a, bs, rest, fuel, hp, hf => by simp [packb] at hp
  | .pcallable, bs, rest, fuel, hp, hf => by simp [packb] at hp

theorem unpackArrayN_packbList : ∀ (xs : List PyValue) (bs rest : List Nat) (fuel : Nat),
    packbList xs = some bs → msgNeedArr xs ≤ fuel →
    unpackArrayN fuel xs.length (bs ++ rest) = some (pyEraseList xs, rest)
  | [], bs, rest, fuel, hp, hf => by
    injection hp with hp
    subst hp
    rw [List.length_nil, List.nil_append, unpackArrayN_zero]
    rfl
  | x :: xs, bs, rest, fuel, hp, hf => by
    simp only [msgNeedArr] at hf
    obtain ⟨f, rfl⟩ : ∃ f, fuel = f + 1 := ⟨fuel - 1, by omega⟩
    simp only [packbList] at hp
    cases ha : packb x with
    | none =>
      cases hb : packbList xs with
      | none => rw [ha, hb] at hp; exact Option.noConfusion hp
      | some b => rw [ha, hb] at hp; exact Option.noConfusion hp
    | some a =>
      cases hb : packbList xs with
      | none => rw [ha, hb] at hp; exact Option.noConfusion hp
      | some b =>
        rw [ha, hb] at hp
        injection hp with hp; subst hp
        show unpackArrayN (f + 1) (xs.length + 1) (a ++ b ++ rest) = _
        rw [unpackArrayN_succ, List.append_assoc,
          unpackVal_packb x a (b ++ rest) f ha (by omega)]
        simp only [Option.some_bind]
        rw [unpackArrayN_packbList xs b rest f hb (by omega)]
        rfl

theorem unpackMapN_packbEntries : ∀ (es : List (PyValue × PyValue)) (bs rest : List Nat) (fuel : Nat),
    packbEntries es = some bs → msgNeedMap es ≤ fuel →
    unpackMapN fuel es.length (bs ++ rest) = some (pyEraseEntries es, rest)
  | [], bs, rest, fuel, hp, hf => by
    injection hp with hp
    subst hp
    rw [List.length_nil, List.nil_append, unpackMapN_zero]
    rfl
  | (k, v) :: es, bs, rest, fuel, hp, hf => by
    simp only [msgNeedMap] at hf
    obtain ⟨f, rfl⟩ : ∃ f, fuel = f + 1 := ⟨fuel - 1, by omega⟩
    simp only [packbEntries] at hp
    cases ha : packb k with
    | none =>
      cases hb : packb v with
      | none =>
        cases hc : packbEntries es with
        | none => rw [ha, hb, hc] at hp; exact Option.noConfusion hp
        | some c => rw [ha, hb, hc] at hp; exact Option.noConfusion hp
      | some b =>
        cases hc : packbEntries es with
        | none => rw [ha, hb, hc] at hp; exact Option.noConfusion hp
        | some c => rw [ha, hb, hc] at hp; exact Option.noConfusion hp
    | some a =>
      cases hb : packb v with
      | none =>
        cases hc : packbEntries es with
        | none => rw [ha, hb, hc] at hp; exact Option.noConfusion hp
        | some c => rw [ha, hb, hc] at hp; exact Option.noConfusion hp
      | some b =>
        cases hc : packbEntries es with
        | none => rw [ha, hb, hc] at hp; exact Option.noConfusion hp
        | some c =>
          rw [ha, hb, hc] at hp
          injection hp with hp; subst hp
          show unpackMapN (f + 1) (es.length + 1) (a ++ b ++ c ++ rest) = _
          rw [unpackMapN_succ, List.append_assoc, List.append_assoc,
            unpackVal_packb k a (b ++ (c ++ rest)) f ha (by omega)]
          simp only [Option.some_bind]
          rw [unpackVal_packb v b (c ++ rest) f hb (by omega)]
          simp only [Option.some_bind]
          rw [unpackMapN_packbEntries es c rest f hc (by omega)]
          rfl

end

/-! ### Enough fuel for any packed value -/

mutual

theorem packb_bound : ∀ (v : PyValue) (bs : List Nat), packb v = some bs →
    1 ≤ bs.length ∧ msgNeed v ≤ 2 * bs.length - 1
  | .pnone, bs, hp => by
    injection hp with hp; subst hp; simp [msgNeed]
  | .pbool b, bs, hp => by
    injection hp with hp; subst hp; simp [msgNeed]
  | .pint i, bs, hp => by
    simp only [packb, packInt] at hp
    split_ifs at hp <;> (injection hp with hp; subst hp) <;>
      simp [msgNeed, beBytes_length]
  | .pfloat bits, bs, hp => by
    simp only [packb] at hp
    split_ifs at hp
    injection hp with hp; subst hp
    simp [msgNeed, beBytes_length]
  | .pstr s, bs, hp => by
    simp only [packb, strHeader] at hp
    split_ifs at hp with h1 h2 h3 h4
    all_goals
      first
      | (simp only [Option.map_some'] at hp; injection hp with hp; subst hp
         simp only [msgNeed, List.length_cons, List.length_append,
           beBytes_length]
         omega)
      | simp at hp
  | .pbytes b, bs, hp => by
    simp only [packb, binHeader] at hp
    split_ifs at hp with h1 h2 h3
    all_goals
      first
      | (simp only [Option.map_some'] at hp; injection hp with hp; subst hp
         simp only [msgNeed, List.length_cons, List.length_append,
           beBytes_length]
         omega)
      | simp at hp
  | .plist xs, bs, hp => by
    simp only [packb] at hp
    cases hbody : packbList xs with
    | none => rw [hbody] at hp; simp at hp
    | some body =>
      rw [hbody] at hp
      have hb := packbList_bound xs body hbody
      simp only [arrayHeader] at hp
      split_ifs at hp with h1 h2 h3
      all_goals
        first
        | (simp only [Option.some_bind, Option.map_some'] at hp
           injection hp with hp; subst hp
           simp only [msgNeed, List.length_cons, List.length_append,
             beBytes_length]
           omega)
        | simp at hp
  | .ptuple xs, bs, hp => by
    simp only [packb] at hp
    cases hbody : packbList xs with
    | none => rw [hbody] at hp; simp at hp
    | some body =>
      rw [hbody] at hp
      have hb := packbList_bound xs body hbody
      simp only [arrayHeader] at hp
      split_ifs at hp with h1 h2 h3
      all_goals
        first
        | (simp only [Option.some_bind, Option.map_some'] at hp
           injection hp with hp; subst hp
           simp only [msgNeed, List.length_cons, List.length_append,
             beBytes_length]
           omega)
        | simp at hp
  | .pdict es, bs, hp => by
    simp only [packb] at hp
    cases hbody : packbEntries es with
    | none => rw [hbody] at hp; simp at hp
    | some body =>
      rw [hbody] at hp
      have hb := packbEntries_bound es body hbody
      simp only [mapHeader] at hp
      split_ifs at hp with h1 h2 h3
      all_goals
        first
        | (simp only [Option.some_bind, Option.map_some'] at hp
           injection hp with hp; subst hp
           simp only [msgNeed, List.length_cons, List.length_append,
             beBytes_length]
           omega)
        | simp at hp
  | .parray a, bs, hp => by simp [packb] at hp
  | .pcallable, bs, hp => by simp [packb] at hp

theorem packbList_bound : ∀ (xs : List PyValue) (bs : List Nat),
    packbList xs = some bs → msgNeedArr xs ≤ 2 * bs.length
  | [], bs, hp => by
    injection hp with hp; subst hp; simp [msgNeedArr]
  | x :: xs, bs, hp => by
    simp only [packbList] at hp
    cases ha : packb x with
    | none =>
      cases hb : packbList xs with
      | none => rw [ha, hb] at hp; exact Option.noConfusion hp
      | some b => rw [ha, hb] at hp; exact Option.noConfusion hp
    | some a =>
      cases hb : packbList xs with
      | none => rw [ha, hb] at hp; exact Option.noConfusion hp
      | some b =>
        rw [ha, hb] at hp
        injection hp with hp; subst hp
        have h1 := packb_bound x a ha
        have h2 := packbList_bound xs b hb
        simp only [msgNeedArr, List.length_append]
        omega

theorem packbEntries_bound : ∀ (es : List (PyValue × PyValue)) (bs : List Nat),
    packbEntries es = some bs → msgNeedMap es ≤ 2 * bs.length
  | [], bs, hp => by
    injection hp with hp; subst hp; simp [msgNeedMap]
  | (k, v) :: es, bs, hp => by
    simp only [packbEntries] at hp
    cases ha : packb k with
    | none =>
      cases hb : packb v with
      | none =>
        cases hc : packbEntries es with
        | none => rw [ha, hb, hc] at hp; exact Option.noConfusion hp
        | some c => rw [ha, hb, hc] at hp; exact Option.noConfusion hp
      | some b =>
        cases hc : packbEntries es with
        | none => rw [ha, hb, hc] at hp; exact Option.noConfusion hp
        | some c => rw [ha, hb, hc] at hp; exact Option.noConfusion hp
    | some a =>
      cases hb : packb v with
      | none =>
        cases hc : packbEntries es with
        | none => rw [ha, hb, hc] at hp; exact Option.noConfusion hp
        | some c => rw [ha, hb, hc] at hp; exact Option.noConfusion hp
      | some b =>
        cases hc : packbEntries es with
        | none => rw [ha, hb, hc] at hp; exact Option.noConfusion hp
        | some c =>
          rw [ha, hb, hc] at hp
          injection hp with hp; subst hp
          have h1 := packb_bound k a ha
          have h2 := packb_bound v b hb
          have h3 := packbEntries_bound es c hc
          simp only [msgNeedMap, List.length_append]
          omega

end

/-- The full `unpackb` round trip on packed values. -/
theorem unpackb_packb (v : PyValue) (bs : List Nat) (hp : packb v = some bs) :
    unpackb bs = some (pyErase v) := by
  have hb := packb_bound v bs hp
  have h := unpackVal_packb v bs [] (2 * bs.length + 2) hp (by omega)
  rw [List.append_nil] at h
  unfold unpackb
  rw [h]

mutual

theorem pyErase_of_tupleFree : ∀ (v : PyValue), tupleFree v = true → pyErase v = v
  | .pnone, _ => rfl
  | .pbool _, _ => rfl
  | .pint _, _ => rfl
  | .pfloat _, _ => rfl
  | .pstr _, _ => rfl
  | .pbytes _, _ => rfl
  | .parray _, _ => rfl
  | .pcallable, _ => rfl
  | .plist xs, h => by
    simp only [tupleFree] at h
    simp only [pyErase, pyEraseList_of_tupleFree xs h]
  | .ptuple _, h => by simp [tupleFree] at h
  | .pdict es, h => by
    simp only [tupleFree] at h
    simp only [pyErase, pyEraseEntries_of_tupleFree es h]

theorem pyEraseList_of_tupleFree : ∀ (xs : List PyValue),
    tupleFreeList xs = true → pyEraseList xs = xs
  | [], _ => rfl
  | x :: xs, h => by
    simp only [tupleFreeList, Bool.and_eq_true] at h
    simp only [pyEraseList, pyErase_of_tupleFree x h.1,
      pyEraseList_of_tupleFree xs h.2]

theorem pyEraseEntries_of_tupleFree : ∀ (es : List (PyValue × PyValue)),
    tupleFreeEntries es = true → pyEraseEntries es = es
  | [], _ => rfl
  | (k, v) :: es, h => by
    simp only [tupleFreeEntries, Bool.and_eq_true] at h
    simp only [pyEraseEntries, pyErase_of_tupleFree k h.1.1,
      pyErase_of_tupleFree v h.1.2, pyEraseEntries_of_tupleFree es h.2]

end

/-! ## The dense-array codec

`_serialize_numpy_array` (save.py lines 58-61) writes `np.save(buf, arr,
allow_pickle=False)`: the `.npy` container carrying element type, shape and
the contiguous buffer.  The model keeps the same information content behind
the real format's magic byte 0x93, with an injective length-delimited layout;
`np.load(io.BytesIO(data), allow_pickle=False)` is its exact inverse and
rejects anything else. -/

def _serialize_numpy_array (a : NdArray) : List Nat :=
  147 :: (encNatList a.dtype ++ (encNatList a.shape ++ encNatList a.data))

/-- Modelled from the spec: `np.load` on an in-memory buffer, the inverse of
the dense-array writer; `none` is the `ValueError` it raises on a malformed
container. -/
def parseNumpy (bs : List Nat) : Option NdArray :=
  match bs with
  | [] => none
  | m :: r =>
    if m = 147 then
      match parseNatList r with
      | none => none
      | some (d, r1) =>
        match parseNatList r1 with
        | none => none
        | some (s, r2) =>
          match parseNatList r2 with
          | none => none
          | some (dat, r3) => if r3.isEmpty then some ⟨d, s, dat⟩ else none
    else none

theorem parseNumpy_serialize (a : NdArray) :
    parseNumpy (_serialize_numpy_array a) = some a := by
  have hlast : parseNatList (encNatList a.data) = some (a.data, []) := by
    have := parseNatList_encNatList a.data []
    rwa [List.append_nil] at this
  unfold _serialize_numpy_array parseNumpy
  simp only [parseNatList_encNatList, hlast, if_pos rfl]
  rfl

/-- `_serialize(obj)` (save.py lines 64-67): NumPy arrays via the dense-array
writer, everything else via `msgpack.packb`.  `none` models the uncaught
`TypeError`/`OverflowError` that `packb` raises on unsupported members
(nested arrays, callables, out-of-range integers). -/
def _serialize (v : PyValue) : Option (List Nat) :=
  match v with
  | .parray a => some (_serialize_numpy_array a)
  | v => packb v

/-- Extract an array payload. -/
def asArray : PyValue → Option NdArray
  | .parray a => some a
  | _ => none

/-! ## Canonical JSON for the manifest

`json.dumps(manifest, sort_keys=True)` and `json.load(manifest.json)`.  The
parser covers exactly the shape the saver produces — an object with the keys
`schema` (a string) and `variables` (an array of strings) in sorted order —
plus arbitrary inter-token whitespace and in-string escapes, which is what
the byte-mutation claims quantify over.  `none` models
`json.JSONDecodeError`, which `restore_checkpoint` does *not* catch (it
catches only `FileNotFoundError`). -/

/-- One byte of a JSON string, as `json.dumps` emits it. -/
def jsonEscapeByte (b : Nat) : List Nat :=
  if b = 34 then [92, 34]
  else if b = 92 then [92, 92]
  else if b = 8 then [92, 98]
  else if b = 9 then [92, 116]
  else if b = 10 then [92, 110]
  else if b = 12 then [92, 102]
  else if b = 13 then [92, 114]
  else if b < 32 then [92, 117, 48, 48, hexChar (b / 16), hexChar (b % 16)]
  else [b]

/-- A JSON string literal. -/
def jsonStringLit (s : List Nat) : List Nat :=
  34 :: (s.flatMap jsonEscapeByte ++ [34])

/-- Comma-space-joined list, as the dumps default separators produce. -/
def joinComma : List (List Nat) → List Nat
  | [] => []
  | [x] => x
  | x :: xs => x ++ (44 :: 32 :: joinComma xs)

/-- `json.dumps({"variables": vs, "schema": schema}, sort_keys=True)`:
the bytes of `{"schema": <schema>, "variables": [<vs>]}`. -/
def canonicalManifestJson (schema : List Nat) (vars : List (List Nat)) : List Nat :=
  [123, 34, 115, 99, 104, 101, 109, 97, 34, 58, 32] ++
    (jsonStringLit schema ++
      ([44, 32, 34, 118, 97, 114, 105, 97, 98, 108, 101, 115, 34, 58, 32, 91] ++
        (joinComma (vars.map jsonStringLit) ++ [93, 125])))

/-- JSON inter-token whitespace. -/
def isJsonWs (b : Nat) : Bool := b = 32 || b = 9 || b = 10 || b = 13

def skipWs (bs : List Nat) : List Nat := bs.dropWhile isJsonWs

/-- UTF-8 bytes of a codepoint (for `\uXXXX` escapes). -/
def utf8enc (c : Nat) : List Nat :=
  if c < 0x80 then [c]
  else if c < 0x800 then [0xc0 + c / 64, 0x80 + c % 64]
  else if c < 0x10000 then
    [0xe0 + c / 4096, 0x80 + c / 64 % 64, 0x80 + c % 64]
  else
    [0xf0 + c / 262144, 0x80 + c / 4096 % 64, 0x80 + c / 64 % 64, 0x80 + c % 64]

/-- JSON string body after the opening quote: content bytes until the closing
quote, with the standard escapes. -/
def parseStrBody : List Nat → Option (List Nat × List Nat)
  | [] => none
  | b :: rest =>
    if b = 34 then some ([], rest)
    else if b = 92 then
      match rest with
      | [] => none
      | e :: rest2 =>
        if e = 34 then (parseStrBody rest2).map (fun p => (34 :: p.1, p.2))
        else if e = 92 then (parseStrBody rest2).map (fun p => (92 :: p.1, p.2))
        else if e = 47 then (parseStrBody rest2).map (fun p => (47 :: p.1, p.2))
        else if e = 98 then (parseStrBody rest2).map (fun p => (8 :: p.1, p.2))
        else if e = 116 then (parseStrBody rest2).map (fun p => (9 :: p.1, p.2))
        else if e = 110 then (parseStrBody rest2).map (fun p => (10 :: p.1, p.2))
        else if e = 102 then (parseStrBody rest2).map (fun p => (12 :: p.1, p.2))
        else if e = 114 then (parseStrBody rest2).map (fun p => (13 :: p.1, p.2))
        else if e = 117 then
          match rest2 with
          | h1 :: h2 :: h3 :: h4 :: rest3 =>
            match hexVal h1, hexVal h2, hexVal h3, hexVal h4 with
            | some v1, some v2, some v3, some v4 =>
              (parseStrBody rest3).map (fun p =>
                (utf8enc (((v1 * 16 + v2) * 16 + v3) * 16 + v4) ++ p.1, p.2))
            | _, _, _, _ => none
          | _ => none
        else none
    else if 32 ≤ b then (parseStrBody rest).map (fun p => (b :: p.1, p.2))
    else none

/-- Match a literal token. -/
def expectBytes : List Nat → List Nat → Option (List Nat)
  | [], bs => some bs
  | _ :: _, [] => none
  | p :: ps, b :: bs => if p = b then expectBytes ps bs else none

/-- Items of a JSON string array after the first: `, "…"` repeated, then `]`. -/
def parseVarsTail : Nat → List Nat → Option (List (List Nat) × List Nat)
  | 0, _ => none
  | fuel + 1, bs =>
    match skipWs bs with
    | [] => none
    | c :: r =>
      if c = 93 then some ([], r)
      else if c = 44 then
        match skipWs r with
        | 34 :: r2 =>
          match parseStrBody r2 with
          | none => none
          | some (s, r3) =>
            match parseVarsTail fuel r3 with
            | none => none
            | some (ss, r4) => some (s :: ss, r4)
        | _ => none
      else none

/-- A JSON array of strings after the opening bracket. -/
def parseVarsList (fuel : Nat) (bs : List Nat) :
    Option (List (List Nat) × List Nat) :=
  match skipWs bs with
  | [] => none
  | c :: r =>
    if c = 93 then some ([], r)
    else if c = 34 then
      match parseStrBody r with
      | none => none
      | some (s, r2) =>
        match parseVarsTail fuel r2 with
        | none => none
        | some (ss, r3) => some (s :: ss, r3)
    else none

/-- The parsed manifest: `json.load(manifest.json)` followed by the uses
`manifest["variables"]` and the re-serialization for the checksum. -/
structure Manifest where
  schema : List Nat
  vars : List (List Nat)

/-- Parse `manifest.json`: the object shape the saver writes, with arbitrary
inter-token whitespace.  `none` models `json.JSONDecodeError` (or a manifest
of an unexpected shape, which the model does not distinguish). -/
def parseManifestJson (bs : List Nat) : Option Manifest :=
  match skipWs bs with
  | 123 :: r1 =>
    match skipWs r1 with
    | 34 :: r2 =>
      match expectBytes [115, 99, 104, 101, 109, 97, 34] r2 with
      | none => none
      | some r3 =>
        match skipWs r3 with
        | 58 :: r4 =>
          match skipWs r4 with
          | 34 :: r5 =>
            match parseStrBody r5 with
            | none => none
            | some (schema, r6) =>
              match skipWs r6 with
              | 44 :: r7 =>
                match skipWs r7 with
                | 34 :: r8 =>
                  match expectBytes
                      [118, 97, 114, 105, 97, 98, 108, 101, 115, 34] r8 with
                  | none => none
                  | some r9 =>
                    match skipWs r9 with
                    | 58 :: r10 =>
                      match skipWs r10 with
                      | 91 :: r11 =>
                        match parseVarsList (r11.length + 1) r11 with
                        | none => none
                        | some (vs, r12) =>
                          match skipWs r12 with
                          | 125 :: r13 =>
                            if (skipWs r13).isEmpty then some ⟨schema, vs⟩
                            else none
                          | _ => none
                      | _ => none
                    | _ => none
                | _ => none
              | _ => none
          | _ => none
        | _ => none
    | _ => none
  | _ => none

/-! ### The canonical manifest parses back to itself -/

theorem skipWs_cons {b : Nat} (h : isJsonWs b = false) (bs : List Nat) :
    skipWs (b :: bs) = b :: bs := by
  simp [skipWs, List.dropWhile_cons, h]

theorem skipWs_ws {b : Nat} (h : isJsonWs b = true) (bs : List Nat) :
    skipWs (b :: bs) = skipWs bs := by
  simp [skipWs, List.dropWhile_cons, h]

theorem psb_close (T : List Nat) : parseStrBody (34 :: T) = some ([], T) := by
  rw [parseStrBody.eq_def]
  simp only [reduceIte]
  try rfl

theorem psb_esc_quote (T : List Nat) :
    parseStrBody (92 :: 34 :: T) =
      (parseStrBody T).map (fun p => (34 :: p.1, p.2)) := by
  rw [parseStrBody.eq_def]
  simp only [reduceIte]
  try rfl

theorem psb_esc_back (T : List Nat) :
    parseStrBody (92 :: 92 :: T) =
      (parseStrBody T).map (fun p => (92 :: p.1, p.2)) := by
  rw [parseStrBody.eq_def]
  simp only [reduceIte]
  try rfl

theorem psb_esc_b (T : List Nat) :
    parseStrBody (92 :: 98 :: T) =
      (parseStrBody T).map (fun p => (8 :: p.1, p.2)) := by
  rw [parseStrBody.eq_def]
  simp only [reduceIte]
  try rfl

theorem psb_esc_t (T : List Nat) :
    parseStrBody (92 :: 116 :: T) =
      (parseStrBody T).map (fun p => (9 :: p.1, p.2)) := by
  rw [parseStrBody.eq_def]
  simp only [reduceIte]
  try rfl

theorem psb_esc_n (T : List Nat) :
    parseStrBody (92 :: 110 :: T) =
      (parseStrBody T).map (fun p => (10 :: p.1, p.2)) := by
  rw [parseStrBody.eq_def]
  simp only [reduceIte]
  try rfl

theorem psb_esc_f (T : List Nat) :
    parseStrBody (92 :: 102 :: T) =
      (parseStrBody T).map (fun p => (12 :: p.1, p.2)) := by
  rw [parseStrBody.eq_def]
  simp only [reduceIte]
  try rfl

theorem psb_esc_r (T : List Nat) :
    parseStrBody (92 :: 114 :: T) =
      (parseStrBody T).map (fun p => (13 :: p.1, p.2)) := by
  rw [parseStrBody.eq_def]
  simp only [reduceIte]
  try rfl

theorem psb_esc_u (h1 h2 h3 h4 : Nat) (T : List Nat) :
    parseStrBody (92 :: 117 :: h1 :: h2 :: h3 :: h4 :: T) =
      (match hexVal h1, hexVal h2, hexVal h3, hexVal h4 with
      | some v1, some v2, some v3, some v4 =>
        (parseStrBody T).map (fun p =>
          (utf8enc (((v1 * 16 + v2) * 16 + v3) * 16 + v4) ++ p.1, p.2))
      | _, _, _, _ => none) := by
  rw [parseStrBody.eq_def]
  simp only [reduceIte]
  try rfl

theorem psb_lit (b : Nat) (T : List Nat) (hge : 32 ≤ b) (h34 : b ≠ 34)
    (h92 : b ≠ 92) :
    parseStrBody (b :: T) =
      (parseStrBody T).map (fun p => (b :: p.1, p.2)) := by
  rw [parseStrBody.eq_def]
  simp only [if_neg h34, if_neg h92, if_pos hge]

theorem parseStrBody_escByte (b : Nat) (hb : b < 256) (T : List Nat) :
    parseStrBody (jsonEscapeByte b ++ T) =
      (parseStrBody T).map (fun p => (b :: p.1, p.2)) := by
  unfold jsonEscapeByte
  split_ifs with e1 e2 e3 e4 e5 e6 e7 e8
  · subst e1
    simp only [List.cons_append, List.nil_append, psb_esc_quote]
  · subst e2
    simp only [List.cons_append, List.nil_append, psb_esc_back]
  · subst e3
    simp only [List.cons_append, List.nil_append, psb_esc_b]
  · subst e4
    simp only [List.cons_append, List.nil_append, psb_esc_t]
  · subst e5
    simp only [List.cons_append, List.nil_append, psb_esc_n]
  · subst e6
    simp only [List.cons_append, List.nil_append, psb_esc_f]
  · subst e7
    simp only [List.cons_append, List.nil_append, psb_esc_r]
  · simp only [List.cons_append, List.nil_append, psb_esc_u]
    rw [hexVal_hexChar (b / 16) (by omega), hexVal_hexChar (b % 16) (by omega)]
    have h48 : hexVal 48 = some 0 := rfl
    rw [h48]
    have hcp : ((0 * 16 + 0) * 16 + b / 16) * 16 + b % 16 = b := by omega
    simp only [hcp]
    unfold utf8enc
    rw [if_pos (by omega)]
    simp only [List.singleton_append]
  · rw [List.singleton_append, psb_lit b _ (by omega) e1 e2]

theorem parseStrBody_escape (k : List Nat) (hk : ∀ b ∈ k, b < 256)
    (rest : List Nat) :
    parseStrBody (k.flatMap jsonEscapeByte ++ (34 :: rest)) = some (k, rest) := by
  induction k with
  | nil =>
    simp only [List.flatMap_nil, List.nil_append]
    exact psb_close rest
  | cons b k ih =>
    have hb : b < 256 := hk b (by simp)
    have ihk := ih (fun x hx => hk x (by simp [hx]))
    simp only [List.flatMap_cons, List.append_assoc]
    rw [parseStrBody_escByte b hb, ihk]
    rfl

/-- The comma-prefixed continuation of a string array. -/
theorem joinComma_lits (v : List Nat) (vs : List (List Nat)) :
    joinComma ((v :: vs).map jsonStringLit) =
      jsonStringLit v ++ vs.flatMap (fun s => 44 :: 32 :: jsonStringLit s) := by
  induction vs generalizing v with
  | nil => simp [joinComma]
  | cons w ws ih =>
    simp only [List.map_cons, joinComma, List.flatMap_cons]
    rw [show (jsonStringLit w :: ws.map jsonStringLit) =
      ((w :: ws).map jsonStringLit) from rfl, ih w]
    simp [List.append_assoc]

theorem parseVarsTail_flat (vs : List (List Nat))
    (hv : ∀ k ∈ vs, ∀ b ∈ k, b < 256) (rest : List Nat) :
    ∀ fuel, vs.length + 1 ≤ fuel →
    parseVarsTail fuel
        (vs.flatMap (fun s => 44 :: 32 :: jsonStringLit s) ++ (93 :: rest)) =
      some (vs, rest) := by
  induction vs with
  | nil =>
    intro fuel hfuel
    obtain ⟨f, rfl⟩ : ∃ f, fuel = f + 1 := ⟨fuel - 1, by omega⟩
    simp only [List.flatMap_nil, List.nil_append]
    unfold parseVarsTail
    rw [skipWs_cons (by rfl)]
    simp
  | cons v vs ih =>
    intro fuel hfuel
    obtain ⟨f, rfl⟩ : ∃ f, fuel = f + 1 := ⟨fuel - 1, by omega⟩
    have hps := parseStrBody_escape v (hv v (by simp))
      ((vs.flatMap fun s => 44 :: 32 :: jsonStringLit s) ++ (93 :: rest))
    have hih := ih (fun k hk => hv k (by simp [hk])) f (by simp at hfuel; omega)
    simp only [List.flatMap_cons, List.cons_append, List.append_assoc]
    unfold parseVarsTail
    rw [skipWs_cons (by rfl)]
    simp only [jsonStringLit, List.cons_append, List.append_assoc,
      List.singleton_append] at hps hih ⊢
    simp [skipWs_ws (show isJsonWs 32 = true from rfl),
      skipWs_cons (show isJsonWs 34 = false from rfl), hps, hih]

theorem parseVarsList_join (vs : List (List Nat))
    (hv : ∀ k ∈ vs, ∀ b ∈ k, b < 256) (rest : List Nat)
    (fuel : Nat) (hfuel : vs.length + 1 ≤ fuel) :
    parseVarsList fuel
        (joinComma (vs.map jsonStringLit) ++ (93 :: rest)) =
      some (vs, rest) := by
  cases vs with
  | nil =>
    simp only [List.map_nil, joinComma, List.nil_append]
    unfold parseVarsList
    rw [skipWs_cons (by rfl)]
    simp
  | cons v vs =>
    have hps := parseStrBody_escape v (hv v (by simp))
      ((vs.flatMap fun s => 44 :: 32 :: jsonStringLit s) ++ (93 :: rest))
    have hih := parseVarsTail_flat vs (fun k hk => hv k (by simp [hk])) rest fuel
      (by simp at hfuel; omega)
    rw [joinComma_lits]
    unfold parseVarsList
    simp only [jsonStringLit, List.cons_append, List.append_assoc,
      List.singleton_append] at hps hih ⊢
    rw [skipWs_cons (by rfl)]
    simp [hps, hih]

theorem skipWs_nil : skipWs [] = [] := rfl

theorem jsonStringLit_length (s : List Nat) : 2 ≤ (jsonStringLit s).length := by
  simp [jsonStringLit]

theorem flatLits_length (vs : List (List Nat)) :
    vs.length ≤ (vs.flatMap (fun s => 44 :: 32 :: jsonStringLit s)).length := by
  induction vs with
  | nil => simp
  | cons v vs ih =>
    simp only [List.flatMap_cons, List.length_append, List.length_cons]
    simp only [List.length_cons] at *
    omega

theorem joinComma_length (vs : List (List Nat)) :
    vs.length ≤ (joinComma (vs.map jsonStringLit)).length := by
  cases vs with
  | nil => simp [joinComma]
  | cons v vs =>
    rw [joinComma_lits]
    have h1 := jsonStringLit_length v
    have h2 := flatLits_length vs
    simp only [List.length_append, List.length_cons]
    omega

/-- `json.load` inverts `json.dumps(manifest, sort_keys=True)`. -/
theorem parseManifest_canonical (schema : List Nat) (vars : List (List Nat))
    (hs : ∀ b ∈ schema, b < 256) (hv : ∀ k ∈ vars, ∀ b ∈ k, b < 256) :
    parseManifestJson (canonicalManifestJson schema vars) =
      some ⟨schema, vars⟩ := by
  have hvl := parseVarsList_join vars hv [125]
    ((joinComma (vars.map jsonStringLit) ++ [93, 125]).length + 1)
    (by
      have := joinComma_length vars
      simp only [List.length_append, List.length_cons, List.length_nil]
      omega)
  have hps := parseStrBody_escape schema hs
  simp only [canonicalManifestJson, jsonStringLit, List.cons_append,
    List.nil_append, List.append_assoc, List.singleton_append,
    List.length_append, List.length_cons, List.length_nil] at hvl ⊢
  unfold parseManifestJson
  simp [expectBytes, hps, hvl, skipWs_nil,
    skipWs_cons (show isJsonWs 123 = false from rfl),
    skipWs_cons (show isJsonWs 34 = false from rfl),
    skipWs_cons (show isJsonWs 58 = false from rfl),
    skipWs_cons (show isJsonWs 44 = false from rfl),
    skipWs_cons (show isJsonWs 91 = false from rfl),
    skipWs_cons (show isJsonWs 93 = false from rfl),
    skipWs_cons (show isJsonWs 125 = false from rfl),
    skipWs_ws (show isJsonWs 32 = true from rfl)]

/-! ## Key order

Python string comparison on variable names: codepoint-lexicographic, which on
UTF-8 byte sequences is byte-lexicographic (UTF-8 is order-preserving). -/

def lexLe : List Nat → List Nat → Bool
  | [], _ => true
  | _ :: _, [] => false
  | a :: as, b :: bs => if a < b then true else if b < a then false else lexLe as bs

/-- `a <= b` on Python strings (as their UTF-8 bytes). -/
def keyLe (a b : List Nat) : Prop := lexLe a b = true

instance : DecidableRel keyLe := fun a b =>
  inferInstanceAs (Decidable (lexLe a b = true))

theorem lexLe_total : ∀ a b : List Nat, lexLe a b = true ∨ lexLe b a = true
  | [], _ => Or.inl rfl
  | _ :: _, [] => Or.inr rfl
  | a :: as, b :: bs => by
    rcases Nat.lt_trichotomy a b with h | h | h
    · left; simp [lexLe, h]
    · subst h
      rcases lexLe_total as bs with h2 | h2
      · left; simp [lexLe, h2]
      · right; simp [lexLe, h2]
    · right; simp [lexLe, h]

theorem lexLe_trans : ∀ a b c : List Nat,
    lexLe a b = true → lexLe b c = true → lexLe a c = true
  | [], _, _, _, _ => rfl
  | _ :: _, [], _, h, _ => by simp [lexLe] at h
  | _ :: _, _ :: _, [], _, h => by simp [lexLe] at h
  | a :: as, b :: bs, c :: cs, h1, h2 => by
    simp only [lexLe] at h1 h2 ⊢
    by_cases hab : a < b
    · by_cases hbc : b < c
      · rw [if_pos (by omega : a < c)]
      · rw [if_neg hbc] at h2
        by_cases hcb : c < b
        · rw [if_pos hcb] at h2; exact absurd h2 (by simp)
        · have hbc2 : b = c := by omega
          subst hbc2
          rw [if_pos hab]
    · rw [if_neg hab] at h1
      by_cases hba : b < a
      · rw [if_pos hba] at h1; exact absurd h1 (by simp)
      · have hba2 : a = b := by omega
        subst hba2
        rw [if_neg hab] at h1
        by_cases hbc : a < c
        · rw [if_pos hbc]
        · rw [if_neg hbc] at h2 ⊢
          by_cases hcb : c < a
          · rw [if_pos hcb] at h2; exact absurd h2 (by simp)
          · rw [if_neg hcb] at h2 ⊢
            exact lexLe_trans as bs cs h1 h2

theorem lexLe_antisymm : ∀ a b : List Nat,
    lexLe a b = true → lexLe b a = true → a = b
  | [], [], _, _ => rfl
  | [], _ :: _, _, h => by simp [lexLe] at h
  | _ :: _, [], h, _ => by simp [lexLe] at h
  | a :: as, b :: bs, h1, h2 => by
    simp only [lexLe] at h1 h2
    by_cases hab : a < b
    · rw [if_neg (by omega), if_pos hab] at h2
      exact absurd h2 (by simp)
    · by_cases hba : b < a
      · rw [if_neg hab, if_pos hba] at h1
        exact absurd h1 (by simp)
      · have hba2 : a = b := by omega
        subst hba2
        rw [if_neg hab, if_neg hab] at h1 h2
        rw [lexLe_antisymm as bs h1 h2]

instance : IsTotal (List Nat) keyLe := ⟨lexLe_total⟩

instance : IsTrans (List Nat) keyLe := ⟨lexLe_trans⟩

instance : IsAntisymm (List Nat) keyLe := ⟨lexLe_antisymm⟩

/-! ## Namespaces

A Python namespace (`locals()`-style dict): an association list in insertion
order with unique text keys (keys as UTF-8 bytes). -/

abbrev PyDict := List (List Nat × PyValue)

/-- `namespace[k]` / `k in namespace`. -/
def nsLookup (ns : PyDict) (k : List Nat) : Option PyValue :=
  match ns with
  | [] => none
  | (k2, v) :: rest => if k2 = k then some v else nsLookup rest k

def nsContains (ns : PyDict) (k : List Nat) : Bool := (nsLookup ns k).isSome

/-- `target[k] = v`: overwrite in place, or append a new binding. -/
def nsSet (ns : PyDict) (k : List Nat) (v : PyValue) : PyDict :=
  match ns with
  | [] => [(k, v)]
  | (k2, v2) :: rest =>
    if k2 = k then (k2, v) :: rest else (k2, v2) :: nsSet rest k v

/-- First occurrences of a key list (duplicate `include` entries collapse to
their first position, as in a dict comprehension). -/
def dedupFirst : List (List Nat) → List (List Nat)
  | [] => []
  | k :: ks => k :: (dedupFirst ks).filter (fun x => decide (x ≠ k))

/-- Step 1 of `save_checkpoint` (save.py lines 108-111): take the whole
namespace, or `{k: namespace[k] for k in include if k in namespace}`. -/
def selectItems (ns : PyDict) (inc : Option (List (List Nat))) : PyDict :=
  match inc with
  | none => ns
  | some ks =>
    (dedupFirst (ks.filter (fun k => nsContains ns k))).filterMap
      (fun k => (nsLookup ns k).map (fun v => (k, v)))

/-- Step 2 (lines 116-122): the keys whose values fail `_is_safe`, in
iteration order (the recorded type name and truncated repr are elided). -/
def unsafeKeys (items : PyDict) : List (List Nat) :=
  (items.filter (fun kv => !(_is_safe kv.2))).map (fun kv => kv.1)

/-! ## The checkpoint store -/

/-- One `objects.idx` record minus the encoded bytes (the parsed JSON layer
of `objects.idx` is elided: the store round-trips it verbatim and no claim
mutates its bytes).  `type` is `entry.get("type")`. -/
structure IdxEntry where
  offset : Nat
  length : Nat
  sha256 : List Nat
  type : Option (List Nat)

/-- `"numpy"`. -/
def numpyTag : List Nat := [110, 117, 109, 112, 121]

/-- `"msgpack"`. -/
def msgpackTag : List Nat := [109, 115, 103, 112, 97, 99, 107]

def typeTag (v : PyValue) : List Nat :=
  if v.isNdarray then numpyTag else msgpackTag

/-- Step 4 (lines 132-151): serialize each selected value in key order,
concatenating into the blob while recording offset / length / sha / type. -/
def buildObjects (items : PyDict) :
    List (List Nat) → Nat → Option (List (List Nat × IdxEntry) × List Nat)
  | [], _ => some ([], [])
  | k :: ks, offset =>
    match nsLookup items k with
    | none => none
    | some v =>
      match _serialize v with
      | none => none
      | some data =>
        match buildObjects items ks (offset + data.length) with
        | none => none
        | some (idx, blob) =>
          some ((k, ⟨offset, data.length, sha256hex data, some (typeTag v)⟩) :: idx,
            data ++ blob)

/-- The files of one checkpoint directory. -/
structure CkptDir where
  manifestJson : List Nat
  metadataJson : List Nat
  objectsIdx : List (List Nat × IdxEntry)
  objectsBin : List Nat
  checksumFile : List Nat

/-- The checkpoint root: content-address → directory contents. -/
abbrev Root := List (List Nat × CkptDir)

def rootLookup (root : Root) (name : List Nat) : Option CkptDir :=
  match root with
  | [] => none
  | (n, d) :: rest => if n = name then some d else rootLookup rest name

/-- A staging step of `save_checkpoint` that can be made to fail (fault
injection).  Every step sits inside the single `try`/`except` of lines
197-232 — except the temp-directory fsync of lines 221-226, which is wrapped
in its own `try`/`except Exception: pass` and whose failure is swallowed. -/
inductive StageStep where
  | writeManifest
  | writeMetadata
  | writeIdx
  | writeBlob
  | writeChecksum
  | fsyncTmpDir
  | rename
deriving DecidableEq

inductive SaveOutcome where
  | ok (checkpointId : List Nat) (root : Root)
  | errUnserializable (details : List (List Nat)) (root : Root)
  | errSerialize (root : Root)
  | errAtomicWrite (cause : StageStep) (root : Root)

/-- The returned content address, when the call succeeded. -/
def SaveOutcome.idOf : SaveOutcome → Option (List Nat)
  | .ok id _ => some id
  | _ => none

/-- `"v1"`. -/
def v1Tag : List Nat := [118, 49]

/-- `save_checkpoint(execution_id, namespace, path, name, include)`
(save.py lines 70-234).  The metadata file's bytes are an opaque parameter:
caller frame, environment and git data never influence the content address
(only `manifest` and the blob are hashed, lines 185-188).  `fault` injects a
failure into the named staging step; any faulting step raises
`AtomicWriteError` after `shutil.rmtree(tmp_dir, ignore_errors=True)`
(lines 230-232), except the swallowed temp-directory fsync.  Checking
`os.path.exists(final_dir)` (line 192) precedes `mkdtemp`, so when the
address already exists nothing at all is staged and the root is returned
untouched. -/
def save_checkpoint (metadataJson : List Nat) (ns : PyDict)
    (inc : Option (List (List Nat))) (root : Root) (fault : Option StageStep) :
    SaveOutcome :=
  let items := selectItems ns inc
  let errs := unsafeKeys items
  if errs.isEmpty = false then .errUnserializable errs root
  else
    let orderedKeys := List.insertionSort keyLe (items.map (fun kv => kv.1))
    match buildObjects items orderedKeys 0 with
    | none => .errSerialize root
    | some (idx, blob) =>
      let manifestBytes := canonicalManifestJson v1Tag orderedKeys
      let checkpointId := sha256hex (manifestBytes ++ blob)
      if (rootLookup root checkpointId).isSome then .ok checkpointId root
      else
        match fault with
        | some .fsyncTmpDir =>
          .ok checkpointId
            ((checkpointId,
              ⟨manifestBytes, metadataJson, idx, blob, checkpointId⟩) :: root)
        | some st => .errAtomicWrite st root
        | none =>
          .ok checkpointId
            ((checkpointId,
              ⟨manifestBytes, metadataJson, idx, blob, checkpointId⟩) :: root)

/-! ## Restore -/

inductive RestoreErr where
  | jsonDecode
  | checksumOuter
  | corruptMissingIdx (var : List Nat)
  | checksumObject (var : List Nat)
  | numpyLoadError (var : List Nat)
  | unpackError (var : List Nat)

/-- Outcome of `restore_checkpoint`; both arms carry the state of the target
namespace when the call returns or raises (the dict is mutated in place, so
values inserted before an exception stay inserted). -/
inductive RestoreResult where
  | ok (restored : List (List Nat)) (target : PyDict)
  | err (e : RestoreErr) (target : PyDict)

def idxLookup (idx : List (List Nat × IdxEntry)) (k : List Nat) :
    Option IdxEntry :=
  match idx with
  | [] => none
  | (k2, e) :: rest => if k2 = k then some e else idxLookup rest k

/-- `f"{prefix}{var}" if prefix else var` (restore.py line 96): `None` and
the empty string are both falsy, so neither is prepended. -/
def applyPrefix (pfx : Option (List Nat)) (var : List Nat) : List Nat :=
  match pfx with
  | some p => if p.isEmpty then var else p ++ var
  | none => var

/-- The variable loop of `restore_checkpoint` (restore.py lines 62-99),
threading the target namespace: earlier variables are inserted before later
integrity checks run. -/
def restoreLoop (idx : List (List Nat × IdxEntry)) (blob : List Nat)
    (pfx : Option (List Nat)) :
    List (List Nat) → PyDict → List (List Nat) → RestoreResult
  | [], target, restored => .ok restored target
  | var :: vars, target, restored =>
    match idxLookup idx var with
    | none => .err (.corruptMissingIdx var) target
    | some entry =>
      let data := (blob.drop entry.offset).take entry.length
      if sha256hex data ≠ entry.sha256 then .err (.checksumObject var) target
      else if entry.type = some numpyTag then
        match parseNumpy data with
        | none => .err (.numpyLoadError var) target
        | some a =>
          restoreLoop idx blob pfx vars
            (nsSet target (applyPrefix pfx var) (.parray a))
            (restored ++ [applyPrefix pfx var])
      else
        match unpackb data with
        | none => .err (.unpackError var) target
        | some v =>
          restoreLoop idx blob pfx vars
            (nsSet target (applyPrefix pfx var) v)
            (restored ++ [applyPrefix pfx var])

/-- `restore_checkpoint(checkpoint_path, target_namespace, prefix)`
(restore.py lines 16-100).  Only `FileNotFoundError` is caught (line 46);
an unparseable `manifest.json` propagates `json.JSONDecodeError`
(`.jsonDecode`).  `metadata.json` is loaded and never used; its JSON layer
is elided.  The outer hash of `json.dumps(manifest, sort_keys=True)` plus
the blob (lines 52-57) is compared against the stripped checksum file
before the loop runs — so before any deserialization. -/
def restore_checkpoint (dir : CkptDir) (target : PyDict)
    (pfx : Option (List Nat)) : RestoreResult :=
  match parseManifestJson dir.manifestJson with
  | none => .err .jsonDecode target
  | some m =>
    if sha256hex (canonicalManifestJson m.schema m.vars ++ dir.objectsBin) ≠
        stripBytes dir.checksumFile then .err .checksumOuter target
    else restoreLoop dir.objectsIdx dir.objectsBin pfx m.vars target []

/-! ## The execution supervisor (`src/pystele/engine/exec.py`)

Only the audit-log effects of the lifecycle operations are modelled; the
observable inputs are the platform flag (`IS_POSIX`), the pid file contents
(`_read_pid`, `None` on any failure) and process liveness
(`psutil.pid_exists`). -/

inductive AuditEvent where
  | START
  | CHECKPOINT
  | CHECKPOINT_LOADED
  | PAUSE
  | PAUSE_SKIPPED
  | RESUME
  | RESUME_SKIPPED
  | KILL
  | EXIT
  | ERROR
deriving DecidableEq

/-- `ExecEngine.pause` (lines 221-229): on non-POSIX appends `PAUSE_SKIPPED`;
on POSIX sends SIGSTOP and appends `PAUSE` only when the pid file holds a
truthy pid of a live process — otherwise it returns having appended
nothing. -/
def ExecEngine.pause (isPosix : Bool) (pid : Option Int) (alive : Int → Bool)
    (audit : List AuditEvent) : List AuditEvent :=
  if !isPosix then audit ++ [.PAUSE_SKIPPED]
  else
    match pid with
    | some p => if p ≠ 0 ∧ alive p = true then audit ++ [.PAUSE] else audit
    | none => audit

/-- `ExecEngine.resume` (lines 231-242): as `pause`, but when the pid is
missing or dead it raises `RuntimeError` (second component `true`), again
appending nothing. -/
def ExecEngine.resume (isPosix : Bool) (pid : Option Int) (alive : Int → Bool)
    (audit : List AuditEvent) : List AuditEvent × Bool :=
  if !isPosix then (audit ++ [.RESUME_SKIPPED], false)
  else
    match pid with
    | some p =>
      if p ≠ 0 ∧ alive p = true then (audit ++ [.RESUME], false)
      else (audit, true)
    | none => (audit, true)

/-- `ExecEngine.kill` (lines 244-253): the signal is sent only to a live
truthy pid, but `KILL` is appended unconditionally. -/
def ExecEngine.kill (pid : Option Int) (alive : Int → Bool)
    (audit : List AuditEvent) : List AuditEvent :=
  audit ++ [.KILL]

/-- The parent half of `ExecEngine.run` (lines 187-219): after the spawn it
appends exactly one `START`. -/
def ExecEngine.runParentAudit (audit : List AuditEvent) : List AuditEvent :=
  audit ++ [.START]

/-- The audit trace of `_child_entry` (lines 63-123) as a function of the
run's outcomes: checkpoint-file presence and load success (lines 91-97,
before `START`), whether `func` returned or raised, and whether the final
`maybe_checkpoint` fired and succeeded. -/
def childAudit (ckptExists loadOk funcOk ckptDue ckptOk : Bool) :
    List AuditEvent :=
  (if ckptExists then [if loadOk then .CHECKPOINT_LOADED else .ERROR] else []) ++
    ([.START] ++
      (if funcOk then
        (if ckptDue then [if ckptOk then .CHECKPOINT else .ERROR] else []) ++
          [.EXIT]
      else [.ERROR]))

/-! ## `_is_safe` against the object heap

Python values live on a heap and may reference themselves; the inductive
`PyValue` only covers the acyclic ones.  To settle what `_is_safe` does on a
cyclic structure the classifier is re-run against an explicit heap with a
recursion-depth budget: `none` means the recursion has not returned within
`fuel` nested frames. -/

inductive HeapCell where
  | primC
  | listC (elems : List Nat)
  | callableC

def heapGet : List HeapCell → Nat → Option HeapCell
  | [], _ => none
  | c :: _, 0 => some c
  | _ :: h, n + 1 => heapGet h n

mutual

/-- `_is_safe` on a heap address, with a recursion-depth budget. -/
def isSafeHeap (h : List HeapCell) : Nat → Nat → Option Bool
  | 0, _ => none
  | fuel + 1, addr =>
    match heapGet h addr with
    | some .primC => some true
    | some (.listC elems) => isSafeHeapAll h fuel elems
    | some .callableC => some false
    | none => some false

def isSafeHeapAll (h : List HeapCell) : Nat → List Nat → Option Bool
  | _, [] => some true
  | fuel, a :: as =>
    match isSafeHeap h fuel a with
    | none => none
    | some false => some false
    | some true => isSafeHeapAll h fuel as

end

/-- The one-cell heap of `l = []; l.append(l)`: a list whose only element is
itself. -/
def cyclicHeap : List HeapCell := [HeapCell.listC [0]]

/-! ### Depth-budgeted classifier on inductive values -/

mutual

def pyDepth : PyValue → Nat
  | .plist xs => 1 + pyDepthList xs
  | .ptuple xs => 1 + pyDepthList xs
  | .pdict es => 1 + pyDepthEntries es
  | _ => 1

def pyDepthList : List PyValue → Nat
  | [] => 0
  | x :: xs => max (pyDepth x) (pyDepthList xs)

def pyDepthEntries : List (PyValue × PyValue) → Nat
  | [] => 0
  | (_, v) :: es => max (pyDepth v) (pyDepthEntries es)

end

mutual

/-- `_is_safe` on an (acyclic) value with a recursion-depth budget:
the same recursion as `_is_safe`, `none` when the budget runs out. -/
def isSafeFuel : Nat → PyValue → Option Bool
  | 0, _ => none
  | _ + 1, .parray _ => some true
  | _ + 1, .pnone => some true
  | _ + 1, .pbool _ => some true
  | _ + 1, .pint _ => some true
  | _ + 1, .pfloat _ => some true
  | _ + 1, .pstr _ => some true
  | _ + 1, .pbytes _ => some true
  | fuel + 1, .plist xs => isSafeFuelAll fuel xs
  | fuel + 1, .ptuple xs => isSafeFuelAll fuel xs
  | fuel + 1, .pdict es => isSafeFuelEntries fuel es
  | _ + 1, .pcallable => some false

def isSafeFuelAll : Nat → List PyValue → Option Bool
  | _, [] => some true
  | fuel, x :: xs =>
    match isSafeFuel fuel x with
    | none => none
    | some false => some false
    | some true => isSafeFuelAll fuel xs

def isSafeFuelEntries : Nat → List (PyValue × PyValue) → Option Bool
  | _, [] => some true
  | fuel, (k, v) :: es =>
    if !(k.isStr) then some false
    else
      match isSafeFuel fuel v with
      | none => none
      | some false => some false
      | some true => isSafeFuelEntries fuel es

end

/-! ## Supporting lemmas -/

theorem unsafeKeys_nil {ns : PyDict} (h : ∀ kv ∈ ns, _is_safe kv.2 = true) :
    unsafeKeys ns = [] := by
  unfold unsafeKeys
  have : ns.filter (fun kv => !(_is_safe kv.2)) = [] := by
    rw [List.filter_eq_nil]
    intro kv hkv
    simp [h kv hkv]
  rw [this, List.map_nil]

theorem nsLookup_mem {ns : PyDict} {k : List Nat} {v : PyValue}
    (h : nsLookup ns k = some v) : (k, v) ∈ ns := by
  induction ns with
  | nil => simp [nsLookup] at h
  | cons kv rest ih =>
    obtain ⟨k2, v2⟩ := kv
    simp only [nsLookup] at h
    split_ifs at h with he
    · injection h with h
      subst he
      subst h
      exact List.mem_cons_self _ _
    · exact List.mem_cons_of_mem _ (ih h)

theorem mem_keys_of_lookup {ns : PyDict} {k : List Nat}
    (h : (nsLookup ns k).isSome = true) : k ∈ ns.map Prod.fst := by
  cases hv : nsLookup ns k with
  | none => rw [hv] at h; simp at h
  | some v => exact List.mem_map.mpr ⟨(k, v), nsLookup_mem hv, rfl⟩

theorem lookup_isSome_of_mem_keys {ns : PyDict} {k : List Nat}
    (h : k ∈ ns.map Prod.fst) : (nsLookup ns k).isSome = true := by
  induction ns with
  | nil => simp at h
  | cons kv rest ih =>
    obtain ⟨k2, v2⟩ := kv
    simp only [List.map_cons, List.mem_cons] at h
    simp only [nsLookup]
    by_cases he : k2 = k
    · rw [if_pos he]; rfl
    · rw [if_neg he]
      exact ih (h.resolve_left (fun hk => he hk.symm))

theorem nsSet_lookup (t : PyDict) (k q : List Nat) (v : PyValue) :
    nsLookup (nsSet t k v) q = if k = q then some v else nsLookup t q := by
  induction t with
  | nil => simp only [nsSet, nsLookup]
  | cons kv rest ih =>
    obtain ⟨k2, v2⟩ := kv
    simp only [nsSet]
    by_cases h2 : k2 = k
    · subst h2
      simp only [nsLookup]
      by_cases he : k2 = q
      · rw [if_pos he, if_pos he]
      · rw [if_neg he, if_neg he, if_neg he]
    · rw [if_neg h2]
      simp only [nsLookup, ih]
      by_cases he : k2 = q
      · subst he
        rw [if_pos rfl, if_neg (fun hk => h2 hk.symm), if_pos rfl]
      · rw [if_neg he, if_neg he]

theorem foldl_nsSet_lookup (keys : List (List Nat)) (val : List Nat → PyValue)
    (target : PyDict) (q : List Nat) (hnd : keys.Nodup) :
    nsLookup (keys.foldl (fun t k => nsSet t k (val k)) target) q =
      if q ∈ keys then some (val q) else nsLookup target q := by
  induction keys generalizing target with
  | nil => simp
  | cons k ks ih =>
    simp only [List.foldl_cons]
    rw [ih _ (List.Nodup.of_cons hnd)]
    by_cases hq : q ∈ ks
    · rw [if_pos hq, if_pos (List.mem_cons_of_mem _ hq)]
    · rw [if_neg hq, nsSet_lookup]
      by_cases he : k = q
      · subst he
        rw [if_pos rfl, if_pos (List.mem_cons_self _ _)]
      · rw [if_neg he, if_neg (by
          simp only [List.mem_cons]
          rintro (rfl | hmem)
          · exact he rfl
          · exact hq hmem)]

theorem buildObjects_some {items : PyDict} :
    ∀ (keys : List (List Nat)) (off : Nat),
    (∀ k ∈ keys, ∃ v, nsLookup items k = some v ∧ (_serialize v).isSome = true) →
    ∃ r, buildObjects items keys off = some r
  | [], off, _ => ⟨([], []), rfl⟩
  | k :: ks, off, h => by
    obtain ⟨v, hv, hs⟩ := h k (List.mem_cons_self _ _)
    obtain ⟨data, hdata⟩ := Option.isSome_iff_exists.mp hs
    obtain ⟨⟨idx, blob⟩, hr⟩ :=
      buildObjects_some ks (off + data.length)
        (fun k2 hk2 => h k2 (List.mem_cons_of_mem _ hk2))
    exact ⟨((k, ⟨off, data.length, sha256hex data, some (typeTag v)⟩) :: idx,
        data ++ blob),
      by rw [buildObjects]; simp only [hv, hdata, hr]⟩

theorem asArray_eq {v : PyValue} {a : NdArray} (h : asArray v = some a) :
    v = .parray a := by
  cases v <;> simp [asArray] at h
  rw [h]

theorem serialize_nonarray {v : PyValue} (h : asArray v = none) :
    _serialize v = packb v := by
  cases v <;> simp [asArray] at h ⊢ <;> rfl

theorem typeTag_nonarray {v : PyValue} (h : asArray v = none) :
    typeTag v = msgpackTag := by
  cases v <;> simp [asArray] at h ⊢ <;> rfl

theorem typeTag_array (a : NdArray) : typeTag (.parray a) = numpyTag := rfl

theorem pyErase_array (a : NdArray) : pyErase (.parray a) = .parray a := rfl

/-- Walking the restore loop over keys whose objects were just built:
every slice comes back exactly, every per-object hash matches, and each
value decodes to the `pyErase` image of the saved one. -/
theorem restoreLoop_ok (items : PyDict)
    (fullIdx : List (List Nat × IdxEntry)) (fullBlob : List Nat) :
    ∀ (keys : List (List Nat)) (pre : List Nat)
      (idx : List (List Nat × IdxEntry)) (blob : List Nat)
      (target : PyDict) (restored : List (List Nat)),
    keys.Nodup →
    buildObjects items keys pre.length = some (idx, blob) →
    fullBlob = pre ++ blob →
    (∀ k ∈ keys, idxLookup fullIdx k = idxLookup idx k) →
    restoreLoop fullIdx fullBlob none keys target restored =
      .ok (restored ++ keys)
        (keys.foldl (fun t k =>
          nsSet t k (pyErase ((nsLookup items k).getD .pnone))) target)
  | [], pre, idx, blob, target, restored, _, hb, hfull, _ => by
    injection hb with hb
    simp [restoreLoop]
  | k :: ks, pre, idx, blob, target, restored, hnd, hb, hfull, hidx => by
    rw [buildObjects] at hb
    cases hv : nsLookup items k with
    | none => simp only [hv] at hb; exact Option.noConfusion hb
    | some v =>
      simp only [hv] at hb
      cases hs : _serialize v with
      | none => simp only [hs] at hb; exact Option.noConfusion hb
      | some data =>
        simp only [hs] at hb
        cases hrest : buildObjects items ks (pre.length + data.length) with
        | none => simp only [hrest] at hb; exact Option.noConfusion hb
        | some p =>
          obtain ⟨idx2, blob2⟩ := p
          simp only [hrest] at hb
          injection hb with hb
          have hbidx : (k, (⟨pre.length, data.length, sha256hex data,
              some (typeTag v)⟩ : IdxEntry)) :: idx2 = idx :=
            congrArg Prod.fst hb
          have hbblob : data ++ blob2 = blob := congrArg Prod.snd hb
          subst hbidx
          subst hbblob
          subst hfull
          have hk_ne : k ∉ ks := (List.nodup_cons.mp hnd).1
          have hnd2 := (List.nodup_cons.mp hnd).2
          have hidx2 : ∀ k2 ∈ ks, idxLookup fullIdx k2 = idxLookup idx2 k2 := by
            intro k2 hk2
            rw [hidx k2 (List.mem_cons_of_mem _ hk2)]
            simp only [idxLookup]
            rw [if_neg (show ¬ k = k2 from fun he => hk_ne (by rw [he]; exact hk2))]
          have hrec := restoreLoop_ok items fullIdx (pre ++ (data ++ blob2))
            ks (pre ++ data) idx2 blob2
            (nsSet target k (pyErase v)) (restored ++ [k]) hnd2
            (by rw [List.length_append]; exact hrest)
            (by rw [List.append_assoc])
            hidx2
          have hself : idxLookup fullIdx k =
              some ⟨pre.length, data.length, sha256hex data,
                some (typeTag v)⟩ := by
            rw [hidx k (List.mem_cons_self _ _)]
            simp [idxLookup]
          rw [restoreLoop, hself]
          have hslice :
              (((pre ++ (data ++ blob2)).drop pre.length).take data.length)
                = data := by
            rw [List.drop_left, List.take_left]
          simp only [hslice, applyPrefix]
          rw [if_neg (fun hc => hc rfl)]
          cases ha : asArray v with
          | some a =>
            have hva := asArray_eq ha
            subst hva
            have hdata : data = _serialize_numpy_array a := by
              simp only [_serialize, Option.some.injEq] at hs
              exact hs.symm
            rw [pyErase_array] at hrec
            rw [if_pos (show (some (typeTag (PyValue.parray a)) : Option (List Nat))
                  = some numpyTag from rfl),
              hdata, parseNumpy_serialize]
            rw [← hdata]
            simp only [hrec]
            simp [hv, pyErase_array, List.append_assoc]
          | none =>
            have htag : typeTag v = msgpackTag := typeTag_nonarray ha
            have hnp : ¬((some (typeTag v) : Option (List Nat)) = some numpyTag) := by
              rw [htag]
              intro hc
              injection hc with hc
              exact absurd hc (by decide)
            rw [if_neg hnp]
            have hpk : packb v = some data := by
              rw [← serialize_nonarray ha]; exact hs
            rw [unpackb_packb v data hpk]
            simp only [hrec]
            simp [hv, List.append_assoc]

theorem nsLookup_eq_none_of_not_mem {ns : PyDict} {k : List Nat}
    (h : k ∉ ns.map Prod.fst) : nsLookup ns k = none := by
  cases hl : nsLookup ns k with
  | none => rfl
  | some v => exact absurd (mem_keys_of_lookup (by rw [hl]; rfl)) h

/-- `restore_checkpoint` is the only producer of the outer checksum error:
the variable loop never reports it. -/
theorem restoreLoop_no_outer (idx : List (List Nat × IdxEntry)) (blob : List Nat)
    (pfx : Option (List Nat)) :
    ∀ (vars : List (List Nat)) (target : PyDict) (restored : List (List Nat))
      (t : PyDict),
    restoreLoop idx blob pfx vars target restored ≠ .err .checksumOuter t
  | [], target, restored, t => by
    intro h
    rw [restoreLoop] at h
    exact RestoreResult.noConfusion h
  | var :: vars, target, restored, t => by
    intro h
    rw [restoreLoop] at h
    cases he : idxLookup idx var with
    | none =>
      rw [he] at h
      injection h with h1 h2
      exact RestoreErr.noConfusion h1
    | some e =>
      rw [he] at h
      simp only at h
      by_cases hsha : sha256hex ((blob.drop e.offset).take e.length) ≠ e.sha256
      · rw [if_pos hsha] at h
        injection h with h1 h2
        exact RestoreErr.noConfusion h1
      · rw [if_neg hsha] at h
        by_cases ht : e.type = some numpyTag
        · rw [if_pos ht] at h
          cases hp : parseNumpy ((blob.drop e.offset).take e.length) with
          | none =>
            rw [hp] at h
            injection h with h1 h2
            exact RestoreErr.noConfusion h1
          | some a =>
            rw [hp] at h
            exact restoreLoop_no_outer idx blob pfx vars _ _ t h
        · rw [if_neg ht] at h
          cases hp : unpackb ((blob.drop e.offset).take e.length) with
          | none =>
            rw [hp] at h
            injection h with h1 h2
            exact RestoreErr.noConfusion h1
          | some v =>
            rw [hp] at h
            exact restoreLoop_no_outer idx blob pfx vars _ _ t h

/-- The empty-string prefix is falsy at restore.py line 96, exactly like
`None`. -/
theorem applyPrefix_empty (var : List Nat) :
    applyPrefix (some []) var = applyPrefix none var := rfl

theorem restoreLoop_prefix_empty (idx : List (List Nat × IdxEntry))
    (blob : List Nat) :
    ∀ (vars : List (List Nat)) (target : PyDict) (restored : List (List Nat)),
    restoreLoop idx blob (some []) vars target restored =
      restoreLoop idx blob none vars target restored
  | [], target, restored => by rw [restoreLoop, restoreLoop]
  | var :: vars, target, restored => by
    rw [restoreLoop, restoreLoop]
    cases he : idxLookup idx var with
    | none => rfl
    | some e =>
      simp only
      by_cases hsha : sha256hex ((blob.drop e.offset).take e.length) ≠ e.sha256
      · rw [if_pos hsha, if_pos hsha]
      · rw [if_neg hsha, if_neg hsha]
        by_cases ht : e.type = some numpyTag
        · rw [if_pos ht, if_pos ht]
          cases hp : parseNumpy ((blob.drop e.offset).take e.length) with
          | none => rfl
          | some a =>
            simp only [applyPrefix_empty]
            exact restoreLoop_prefix_empty idx blob vars _ _
        · rw [if_neg ht, if_neg ht]
          cases hp : unpackb ((blob.drop e.offset).take e.length) with
          | none => rfl
          | some v =>
            simp only [applyPrefix_empty]
            exact restoreLoop_prefix_empty idx blob vars _ _

/-- `l = []; l.append(l)`: the classifier recurses through the cell into
itself and never returns, whatever the depth budget. -/
theorem isSafeHeap_cyclic : ∀ fuel, isSafeHeap cyclicHeap fuel 0 = none
  | 0 => by rw [isSafeHeap]
  | fuel + 1 => by
    rw [isSafeHeap]
    show isSafeHeapAll cyclicHeap fuel [0] = none
    rw [isSafeHeapAll, isSafeHeap_cyclic fuel]

mutual

/-- With a budget at least the value's nesting depth, the budgeted classifier
returns and computes `_is_safe`. -/
theorem isSafeFuel_eq : ∀ (v : PyValue) (fuel : Nat), pyDepth v ≤ fuel →
    isSafeFuel fuel v = some (_is_safe v)
  | .pnone, fuel, h => by
    obtain ⟨f, rfl⟩ : ∃ f, fuel = f + 1 :=
      ⟨fuel - 1, by simp [pyDepth] at h; omega⟩
    rfl
  | .pbool b, fuel, h => by
    obtain ⟨f, rfl⟩ : ∃ f, fuel = f + 1 :=
      ⟨fuel - 1, by simp [pyDepth] at h; omega⟩
    rfl
  | .pint i, fuel, h => by
    obtain ⟨f, rfl⟩ : ∃ f, fuel = f + 1 :=
      ⟨fuel - 1, by simp [pyDepth] at h; omega⟩
    rfl
  | .pfloat b, fuel, h => by
    obtain ⟨f, rfl⟩ : ∃ f, fuel = f + 1 :=
      ⟨fuel - 1, by simp [pyDepth] at h; omega⟩
    rfl
  | .pstr s, fuel, h => by
    obtain ⟨f, rfl⟩ : ∃ f, fuel = f + 1 :=
      ⟨fuel - 1, by simp [pyDepth] at h; omega⟩
    rfl
  | .pbytes s, fuel, h => by
    obtain ⟨f, rfl⟩ : ∃ f, fuel = f + 1 :=
      ⟨fuel - 1, by simp [pyDepth] at h; omega⟩
    rfl
  | .parray a, fuel, h => by
    obtain ⟨f, rfl⟩ : ∃ f, fuel = f + 1 :=
      ⟨fuel - 1, by simp [pyDepth] at h; omega⟩
    rfl
  | .pcallable, fuel, h => by
    obtain ⟨f, rfl⟩ : ∃ f, fuel = f + 1 :=
      ⟨fuel - 1, by simp [pyDepth] at h; omega⟩
    rfl
  | .plist xs, fuel, h => by
    obtain ⟨f, rfl⟩ : ∃ f, fuel = f + 1 :=
      ⟨fuel - 1, by simp [pyDepth] at h; omega⟩
    rw [isSafeFuel]
    rw [isSafeFuelAll_eq xs f (by simp [pyDepth] at h; omega)]
    rfl
  | .ptuple xs, fuel, h => by
    obtain ⟨f, rfl⟩ : ∃ f, fuel = f + 1 :=
      ⟨fuel - 1, by simp [pyDepth] at h; omega⟩
    rw [isSafeFuel]
    rw [isSafeFuelAll_eq xs f (by simp [pyDepth] at h; omega)]
    rfl
  | .pdict es, fuel, h => by
    obtain ⟨f, rfl⟩ : ∃ f, fuel = f + 1 :=
      ⟨fuel - 1, by simp [pyDepth] at h; omega⟩
    rw [isSafeFuel]
    rw [isSafeFuelEntries_eq es f (by simp [pyDepth] at h; omega)]
    rfl

theorem isSafeFuelAll_eq : ∀ (xs : List PyValue) (fuel : Nat),
    pyDepthList xs ≤ fuel →
    isSafeFuelAll fuel xs = some (isSafeAll xs)
  | [], fuel, _ => by rw [isSafeFuelAll]; rfl
  | x :: xs, fuel, h => by
    rw [isSafeFuelAll]
    rw [isSafeFuel_eq x fuel (by simp [pyDepthList] at h; omega)]
    cases hx : _is_safe x with
    | false => simp [isSafeAll, hx]
    | true =>
      simp only
      rw [isSafeFuelAll_eq xs fuel (by simp [pyDepthList] at h; omega)]
      simp [isSafeAll, hx]

theorem isSafeFuelEntries_eq : ∀ (es : List (PyValue × PyValue)) (fuel : Nat),
    pyDepthEntries es ≤ fuel →
    isSafeFuelEntries fuel es = some (isSafeEntries es)
  | [], fuel, _ => by rw [isSafeFuelEntries]; rfl
  | (k, v) :: es, fuel, h => by
    rw [isSafeFuelEntries]
    cases hk : k.isStr with
    | false => simp [isSafeEntries, hk]
    | true =>
      simp only [hk, Bool.not_true, Bool.false_eq_true, if_false]
      rw [isSafeFuel_eq v fuel (by simp [pyDepthEntries] at h; omega)]
      cases hv : _is_safe v with
      | false => simp [isSafeEntries, hv]
      | true =>
        simp only
        rw [isSafeFuelEntries_eq es fuel (by simp [pyDepthEntries] at h; omega)]
        simp [isSafeEntries, hk, hv]

end

/-! ### Logical equality of namespaces -/

theorem nsLookup_perm : ∀ {ns1 ns2 : PyDict}, ns1.Perm ns2 →
    (ns1.map Prod.fst).Nodup → ∀ k, nsLookup ns1 k = nsLookup ns2 k := by
  intro ns1 ns2 hp
  induction hp with
  | nil => intro _ _; rfl
  | cons x hp ih =>
    intro hnd k
    obtain ⟨a, v⟩ := x
    simp only [nsLookup]
    by_cases ha : a = k
    · rw [if_pos ha, if_pos ha]
    · rw [if_neg ha, if_neg ha]
      refine ih ?_ k
      simp only [List.map_cons, List.nodup_cons] at hnd
      exact hnd.2
  | swap x y l =>
    intro hnd k
    obtain ⟨a, va⟩ := x
    obtain ⟨b, vb⟩ := y
    have hba : b ≠ a := by
      simp only [List.map_cons, List.nodup_cons, List.mem_cons] at hnd
      exact fun he => hnd.1 (Or.inl he)
    simp only [nsLookup]
    by_cases hb : b = k
    · rw [if_pos hb, if_neg (fun ha => hba (hb.trans ha.symm)), if_pos hb]
    · by_cases ha : a = k
      · rw [if_neg hb, if_pos ha, if_pos ha]
      · rw [if_neg hb, if_neg ha, if_neg ha, if_neg hb]
  | trans h1 h2 ih1 ih2 =>
    intro hnd k
    rw [ih1 hnd k, ih2 (((h1.map Prod.fst).nodup_iff).mp hnd) k]

theorem buildObjects_congr {a b : PyDict}
    (h : ∀ k, nsLookup a k = nsLookup b k) :
    ∀ (keys : List (List Nat)) (off : Nat),
    buildObjects a keys off = buildObjects b keys off
  | [], _ => rfl
  | k :: ks, off => by
    rw [buildObjects, buildObjects, h k]
    cases hv : nsLookup b k with
    | none => rfl
    | some v =>
      simp only [hv]
      cases hs : _serialize v with
      | none => rfl
      | some data =>
        simp only [hs]
        rw [buildObjects_congr h ks (off + data.length)]

theorem unsafeKeys_perm {ns1 ns2 : PyDict} (hp : ns1.Perm ns2) :
    (unsafeKeys ns1).isEmpty = (unsafeKeys ns2).isEmpty := by
  have hperm : (unsafeKeys ns1).Perm (unsafeKeys ns2) := by
    unfold unsafeKeys
    exact (hp.filter (fun kv => !(_is_safe kv.2))).map (fun kv => kv.1)
  have hlen := hperm.length_eq
  cases e1 : unsafeKeys ns1 with
  | nil =>
    cases e2 : unsafeKeys ns2 with
    | nil => rfl
    | cons y ys => rw [e1, e2] at hlen; simp at hlen
  | cons x xs =>
    cases e2 : unsafeKeys ns2 with
    | nil => rw [e1, e2] at hlen; simp at hlen
    | cons y ys => rfl

/-- Sorting is order-oblivious: permuted key lists sort to the same list. -/
theorem sortKeys_perm_eq {l1 l2 : List (List Nat)} (hp : l1.Perm l2) :
    List.insertionSort keyLe l1 = List.insertionSort keyLe l2 :=
  List.eq_of_perm_of_sorted
    ((List.perm_insertionSort keyLe l1).trans
      (hp.trans (List.perm_insertionSort keyLe l2).symm))
    (List.sorted_insertionSort keyLe l1)
    (List.sorted_insertionSort keyLe l2)

/-! ### Inversion and determinism of `save_checkpoint` -/

/-- C6 (confirmed): `save_checkpoint` is idempotent.  A successful save
leaves the returned address present in the returned root, and a repeat call
with the same namespace and include list hits the
`os.path.exists(final_dir)` early return (save.py line 192): same address,
root untouched, nothing staged — so an injected staging fault is never
reached and the metadata bytes are irrelevant. -/
theorem C6_save_idempotent (m1 m2 : List Nat) (ns : PyDict)
    (inc : Option (List (List Nat))) (root root2 : Root)
    (fault1 fault2 : Option StageStep) (id : List Nat)
    (h : save_checkpoint m1 ns inc root fault1 = .ok id root2) :
    save_checkpoint m2 ns inc root2 fault2 = .ok id root2 := by
  simp only [save_checkpoint] at h ⊢
  by_cases he : (unsafeKeys (selectItems ns inc)).isEmpty = false
  · rw [if_pos he] at h
    exact SaveOutcome.noConfusion h
  · rw [if_neg he] at h
    rw [if_neg he]
    cases hb : buildObjects (selectItems ns inc)
        (List.insertionSort keyLe
          ((selectItems ns inc).map (fun kv => kv.1))) 0 with
    | none =>
      rw [hb] at h
      exact SaveOutcome.noConfusion h
    | some p =>
      obtain ⟨idx, blob⟩ := p
      rw [hb] at h
      simp only at h
      simp only [hb]
      by_cases hr : (rootLookup root
          (sha256hex (canonicalManifestJson v1Tag
            (List.insertionSort keyLe
              ((selectItems ns inc).map (fun kv => kv.1))) ++ blob))).isSome
          = true
      · rw [if_pos hr] at h
        injection h with h1 h2
        subst h1
        subst h2
        rw [if_pos hr]
      · rw [if_neg hr] at h
        cases fault1 with
        | none =>
          simp only at h
          injection h with h1 h2
          subst h1
          subst h2
          simp [rootLookup]
        | some st =>
          cases st with
          | fsyncTmpDir =>
            simp only at h
            injection h with h1 h2
            subst h1
            subst h2
            simp [rootLookup]
          | writeManifest => exact SaveOutcome.noConfusion h
          | writeMetadata => exact SaveOutcome.noConfusion h
          | writeIdx => exact SaveOutcome.noConfusion h
          | writeBlob => exact SaveOutcome.noConfusion h
          | writeChecksum => exact SaveOutcome.noConfusion h
          | rename => exact SaveOutcome.noConfusion h

/-- A save into the empty root that succeeds determines everything: the
staged index and blob, the content address, and the one-entry root. -/
theorem save_ok_fresh (m : List Nat) (ns : PyDict) (id : List Nat)
    (root2 : Root)
    (h : save_checkpoint m ns none [] none = .ok id root2) :
    ∃ idx blob,
      buildObjects ns
          (List.insertionSort keyLe (ns.map (fun kv => kv.1))) 0 =
        some (idx, blob) ∧
      id = sha256hex (canonicalManifestJson v1Tag
        (List.insertionSort keyLe (ns.map (fun kv => kv.1))) ++ blob) ∧
      root2 = [(id, ⟨canonicalManifestJson v1Tag
        (List.insertionSort keyLe (ns.map (fun kv => kv.1))),
        m, idx, blob, id⟩)] := by
  simp only [save_checkpoint, selectItems] at h
  by_cases he : (unsafeKeys ns).isEmpty = false
  · rw [if_pos he] at h
    exact SaveOutcome.noConfusion h
  · rw [if_neg he] at h
    cases hb : buildObjects ns
        (List.insertionSort keyLe (ns.map (fun kv => kv.1))) 0 with
    | none =>
      rw [hb] at h
      exact SaveOutcome.noConfusion h
    | some p =>
      obtain ⟨idx, blob⟩ := p
      rw [hb] at h
      simp only [rootLookup, Option.isSome_none, Bool.false_eq_true,
        if_false] at h
      injection h with h1 h2
      subst h1
      subst h2
      exact ⟨idx, blob, rfl, rfl, rfl⟩

/-- C3 (amended): the content address is a function of the logical top-level
namespace alone — metadata, the existing store, and top-level insertion
order do not reach the hash (save.py lines 185-188 hash only the canonical
manifest and the blob, over items in sorted key order).  The original
claim's further reach — that *all* mappings are emitted with sorted keys, so
any two logically equal namespaces hash alike — fails for values that are
dicts: msgpack packs their entries in insertion order (see the
counterexample). -/
theorem C3_id_depends_only_on_logical_namespace (m1 m2 : List Nat) {ns1 ns2 : PyDict}
    (hp : ns1.Perm ns2) (hnd : (ns1.map Prod.fst).Nodup)
    (root1 root2 : Root) :
    SaveOutcome.idOf (save_checkpoint m1 ns1 none root1 none) =
      SaveOutcome.idOf (save_checkpoint m2 ns2 none root2 none) := by
  have hlook : ∀ k, nsLookup ns1 k = nsLookup ns2 k := nsLookup_perm hp hnd
  have hkeys : List.insertionSort keyLe (ns1.map (fun kv => kv.1)) =
      List.insertionSort keyLe (ns2.map (fun kv => kv.1)) :=
    sortKeys_perm_eq (hp.map (fun kv => kv.1))
  have hue := unsafeKeys_perm hp
  simp only [save_checkpoint, selectItems]
  by_cases he : (unsafeKeys ns1).isEmpty = false
  · rw [if_pos he, if_pos (hue ▸ he)]
    rfl
  · rw [if_neg he, if_neg (hue ▸ he)]
    rw [← hkeys, ← buildObjects_congr hlook
      (List.insertionSort keyLe (ns1.map (fun kv => kv.1))) 0]
    cases hb : buildObjects ns1
        (List.insertionSort keyLe (ns1.map (fun kv => kv.1))) 0 with
    | none => rfl
    | some p =>
      obtain ⟨idx, blob⟩ := p
      simp only [hb]
      by_cases h1 : (rootLookup root1
          (sha256hex (canonicalManifestJson v1Tag
            (List.insertionSort keyLe (ns1.map (fun kv => kv.1))) ++ blob))).isSome
          = true
      · rw [if_pos h1]
        by_cases h2 : (rootLookup root2
            (sha256hex (canonicalManifestJson v1Tag
              (List.insertionSort keyLe (ns1.map (fun kv => kv.1))) ++ blob))).isSome
            = true
        · rw [if_pos h2]
          rfl
        · rw [if_neg h2]
          rfl
      · rw [if_neg h1]
        by_cases h2 : (rootLookup root2
            (sha256hex (canonicalManifestJson v1Tag
              (List.insertionSort keyLe (ns1.map (fun kv => kv.1))) ++ blob))).isSome
            = true
        · rw [if_pos h2]
          rfl
        · rw [if_neg h2]
          rfl

/-! ### The save/restore round trip -/

/-- `"v1"` is plain ASCII. -/
theorem v1Tag_bytes : ∀ b ∈ v1Tag, b < 256 := by decide

/-- C1 (amended): the round trip holds on tuple-free namespaces.  Restoring
the directory a fresh save wrote rebuilds the namespace exactly, as a finite
map; tuples are excluded because msgpack with `use_list=True` returns them
as lists (see the counterexample). -/
theorem C1_roundtrip_tuple_free (m : List Nat) (ns : PyDict)
    (htf : ∀ kv ∈ ns, tupleFree kv.2 = true)
    (hkb : ∀ kv ∈ ns, ∀ x ∈ kv.1, x < 256)
    (hnd : (ns.map Prod.fst).Nodup)
    (id : List Nat) (root2 : Root)
    (hsave : save_checkpoint m ns none [] none = .ok id root2)
    (dir : CkptDir) (hdir : rootLookup root2 id = some dir) :
    ∃ target,
      restore_checkpoint dir [] none =
        .ok (List.insertionSort keyLe (ns.map (fun kv => kv.1))) target ∧
      ∀ q, nsLookup target q = nsLookup ns q := by
  obtain ⟨idx, blob, hbuild, hid, hroot⟩ := save_ok_fresh m ns id root2 hsave
  subst hroot
  simp only [rootLookup, eq_self_iff_true, if_true, Option.some.injEq] at hdir
  subst hdir
  have hKmem : ∀ k ∈ List.insertionSort keyLe (ns.map (fun kv => kv.1)),
      k ∈ ns.map (fun kv => kv.1) := by
    intro k hk
    exact (List.perm_insertionSort keyLe (ns.map (fun kv => kv.1))).subset hk
  have hparse := parseManifest_canonical v1Tag
    (List.insertionSort keyLe (ns.map (fun kv => kv.1))) v1Tag_bytes
    (by
      intro k hk b hb
      obtain ⟨kv, hkv, hfst⟩ := List.mem_map.mp (hKmem k hk)
      exact hkb kv hkv b (hfst ▸ hb))
  simp only [restore_checkpoint]
  rw [hparse]
  simp only [hid, stripBytes_sha256hex]
  rw [if_neg (fun hc => hc rfl)]
  have hloop := restoreLoop_ok ns idx
    ([] ++ blob)
    (List.insertionSort keyLe (ns.map (fun kv => kv.1)))
    [] idx blob [] []
    ((List.perm_insertionSort keyLe (ns.map (fun kv => kv.1))).nodup_iff.mpr
      (by
        have : (ns.map (fun kv => kv.1)) = ns.map Prod.fst := rfl
        rw [this]
        exact hnd))
    hbuild rfl (fun _ _ => rfl)
  simp only [List.nil_append] at hloop
  refine ⟨_, hloop, ?_⟩
  intro q
  rw [foldl_nsSet_lookup _ _ _ _
    ((List.perm_insertionSort keyLe (ns.map (fun kv => kv.1))).nodup_iff.mpr hnd)]
  by_cases hq : q ∈ List.insertionSort keyLe (ns.map (fun kv => kv.1))
  · rw [if_pos hq]
    have hqm : q ∈ ns.map Prod.fst := hKmem q hq
    obtain ⟨v, hv⟩ := Option.isSome_iff_exists.mp (lookup_isSome_of_mem_keys hqm)
    rw [hv]
    simp only [Option.getD_some]
    rw [pyErase_of_tupleFree v (htf (q, v) (nsLookup_mem hv))]
  · rw [if_neg hq]
    have hnm : q ∉ ns.map Prod.fst := fun hm => hq
      (((List.perm_insertionSort keyLe (ns.map (fun kv => kv.1))).mem_iff).mpr hm)
    rw [nsLookup_eq_none_of_not_mem hnm]
    rfl

/-! ## The claims -/

/-- C10 (confirmed): `prefix=""` behaves exactly like `prefix=None` — the
f-string at restore.py line 96 tests truthiness, and the empty string is
falsy, so neither prepends anything; inserted names and the returned list
coincide. -/
theorem C10_empty_prefix_equals_none (dir : CkptDir) (target : PyDict) :
    restore_checkpoint dir target (some []) =
      restore_checkpoint dir target none := by
  simp only [restore_checkpoint]
  cases hp : parseManifestJson dir.manifestJson with
  | none => rfl
  | some m =>
    simp only [hp]
    by_cases hc : sha256hex (canonicalManifestJson m.schema m.vars ++
        dir.objectsBin) ≠ stripBytes dir.checksumFile
    · rw [if_pos hc, if_pos hc]
    · rw [if_neg hc, if_neg hc]
      exact restoreLoop_prefix_empty _ _ _ _ _

/-- C2 (amended): when the *outer* checksum disagrees, the error really is
raised before the variable loop, so nothing has been inserted and the target
namespace is returned unchanged.  The original claim also covered the
per-object disagreement, where it fails: the loop inserts earlier variables
before checking later ones (see the counterexample). -/
theorem C2_outer_mismatch_inserts_nothing (dir : CkptDir)
    (target t : PyDict) (pfx : Option (List Nat))
    (h : restore_checkpoint dir target pfx = .err .checksumOuter t) :
    t = target := by
  simp only [restore_checkpoint] at h
  cases hp : parseManifestJson dir.manifestJson with
  | none =>
    rw [hp] at h
    simp only at h
    injection h with h1 h2
    exact RestoreErr.noConfusion h1
  | some m =>
    rw [hp] at h
    simp only at h
    by_cases hc : sha256hex (canonicalManifestJson m.schema m.vars ++
        dir.objectsBin) ≠ stripBytes dir.checksumFile
    · rw [if_pos hc] at h
      injection h with h1 h2
      exact h2.symm
    · rw [if_neg hc] at h
      exact absurd h (restoreLoop_no_outer _ _ _ _ _ _ t)

theorem C2_outer_witness :
    restore_checkpoint ⟨canonicalManifestJson v1Tag [], [], [], [], []⟩
        [([97], PyValue.pint 5)] none =
      .err .checksumOuter [([97], PyValue.pint 5)] ∧
    ([([97], PyValue.pint 5)] : PyDict) = [([97], PyValue.pint 5)] :=
  ⟨rfl, C2_outer_mismatch_inserts_nothing
    ⟨canonicalManifestJson v1Tag [], [], [], [], []⟩
    [([97], PyValue.pint 5)] [([97], PyValue.pint 5)] none rfl⟩

/-- A checkpoint directory whose outer hash is honest but whose `objects.idx`
records a wrong per-object hash for the *second* variable (`objects.idx` is
not covered by the outer hash, restore.py lines 52-57). -/
def c2dir : CkptDir :=
  ⟨canonicalManifestJson v1Tag [[97], [98]], [],
    [([97], ⟨0, 1, sha256hex [1], some msgpackTag⟩),
     ([98], ⟨1, 1, [], some msgpackTag⟩)],
    [1, 2],
    sha256hex (canonicalManifestJson v1Tag [[97], [98]] ++ [1, 2])⟩

theorem C2_object_mismatch_leaves_insertions :
    restore_checkpoint c2dir [] none =
      .err (.checksumObject [98]) [([97], PyValue.pint 1)] ∧
    nsContains [([97], PyValue.pint 1)] [97] = true ∧
    ([([97], PyValue.pint 1)] : PyDict) ≠ ([] : PyDict) :=
  ⟨rfl, rfl, fun h => List.noConfusion h⟩

/-- C4 (amended): kill always appends exactly one record and run's parent
half appends exactly one `START`; the child's trace always holds exactly one
further `START` (exec.py line 113) — so one completed run writes *two*
`START` records, not one — and the exit decision emits exactly one `EXIT`
when `func` returns (line 116) and an `ERROR` record when it raises.  pause
and resume append exactly one record on non-POSIX platforms or when the pid
file holds a truthy pid of a live process.  The original claim fails twice:
on POSIX with a dead, missing or zero pid, `pause` returns without appending
(exec.py lines 221-229 have no else branch) and `resume` raises having
appended nothing, and a run's narrative holds two `START` records, not
exactly one (see the counterexample). -/
theorem C4_audit_totality_on_live_or_nonposix (isPosix : Bool)
    (pid : Option Int) (alive : Int → Bool) (audit : List AuditEvent)
    (h : isPosix = false ∨ ∃ p, pid = some p ∧ p ≠ 0 ∧ alive p = true) :
    (ExecEngine.pause isPosix pid alive audit).length = audit.length + 1 ∧
    (ExecEngine.resume isPosix pid alive audit).1.length = audit.length + 1 ∧
    (ExecEngine.kill pid alive audit).length = audit.length + 1 ∧
    (ExecEngine.runParentAudit audit).length = audit.length + 1 ∧
    ∀ e l f d o : Bool,
      (childAudit e l f d o).count .START = 1 ∧
      (childAudit e l f d o).count .EXIT = (if f then 1 else 0) ∧
      (f = false → .ERROR ∈ childAudit e l f d o) ∧
      (ExecEngine.runParentAudit audit ++ childAudit e l f d o).count .START =
        audit.count .START + 2 := by
  refine ⟨?_, ?_, by simp [ExecEngine.kill],
    by simp [ExecEngine.runParentAudit], ?_⟩
  · cases h with
    | inl h => subst h; simp [ExecEngine.pause]
    | inr h =>
      obtain ⟨p, rfl, hp, ha⟩ := h
      cases isPosix with
      | false => simp [ExecEngine.pause]
      | true => simp [ExecEngine.pause, hp, ha]
  · cases h with
    | inl h => subst h; simp [ExecEngine.resume]
    | inr h =>
      obtain ⟨p, rfl, hp, ha⟩ := h
      cases isPosix with
      | false => simp [ExecEngine.resume]
      | true => simp [ExecEngine.resume, hp, ha]
  · intro e l f d o
    have hstart : (childAudit e l f d o).count .START = 1 := by
      cases e <;> cases l <;> cases f <;> cases d <;> cases o <;> rfl
    refine ⟨hstart, ?_, ?_, ?_⟩
    · cases e <;> cases l <;> cases f <;> cases d <;> cases o <;> rfl
    · intro hf
      subst hf
      cases e <;> cases l <;> cases d <;> cases o <;> decide
    · have h1 : ([AuditEvent.START] : List AuditEvent).count .START = 1 := rfl
      rw [ExecEngine.runParentAudit, List.count_append, List.count_append,
        hstart, h1]

theorem C4_witness :
    (ExecEngine.pause true (some 1) (fun _ => true) []).length =
      ([] : List AuditEvent).length + 1 ∧
    (ExecEngine.resume true (some 1) (fun _ => true) []).1.length =
      ([] : List AuditEvent).length + 1 ∧
    (ExecEngine.kill (some 1) (fun _ => true) []).length =
      ([] : List AuditEvent).length + 1 ∧
    (ExecEngine.runParentAudit []).length =
      ([] : List AuditEvent).length + 1 ∧
    ∀ e l f d o : Bool,
      (childAudit e l f d o).count .START = 1 ∧
      (childAudit e l f d o).count .EXIT = (if f then 1 else 0) ∧
      (f = false → .ERROR ∈ childAudit e l f d o) ∧
      (ExecEngine.runParentAudit [] ++ childAudit e l f d o).count .START =
        ([] : List AuditEvent).count .START + 2 :=
  C4_audit_totality_on_live_or_nonposix true (some 1) (fun _ => true) []
    (Or.inr ⟨1, rfl, by decide, rfl⟩)

theorem C4_posix_pause_dead_pid_appends_nothing :
    ExecEngine.pause true (some 42) (fun _ => false) [.START] = [.START] ∧
    ExecEngine.resume true (some 42) (fun _ => false) [.START] =
      ([.START], true) ∧
    ExecEngine.pause true none (fun _ => true) [.START] = [.START] ∧
    ExecEngine.runParentAudit [] ++ childAudit false false true false false =
      [.START, .START, .EXIT] ∧
    ([AuditEvent.START, .START, .EXIT].count .START ≠ 1) :=
  ⟨rfl, rfl, rfl, rfl, by decide⟩

/-- A mapping with a non-`str` key anywhere among its entries fails the
`all(isinstance(k, str) and _is_safe(v) ...)` test of save.py line 49. -/
theorem isSafeEntries_false_of_non_str :
    ∀ (es : List (PyValue × PyValue)) (k w : PyValue),
    (k, w) ∈ es → k.isStr = false → isSafeEntries es = false
  | (k2, w2) :: es, k, w, hm, hk => by
    rw [isSafeEntries]
    cases List.mem_cons.mp hm with
    | inl h =>
      injection h with h1 h2
      subst h1
      rw [hk]
      simp
    | inr h =>
      rw [isSafeEntries_false_of_non_str es k w h hk]
      simp

/-- C9 (amended): on the (acyclic) values of the model, the classifier's
recursion returns within any budget at least the value's nesting depth and
computes the `_is_safe` boolean, which rejects callables and mappings with
non-text keys.  The original claim's totality on *every* input fails on
cyclic structures, where the recursion never returns (see the
counterexample). -/
theorem C9_classifier_total_on_acyclic (v : PyValue) (fuel : Nat)
    (h : pyDepth v ≤ fuel) :
    isSafeFuel fuel v = some (_is_safe v) ∧
    _is_safe PyValue.pcallable = false ∧
    ∀ (es : List (PyValue × PyValue)) (k w : PyValue),
      (k, w) ∈ es → k.isStr = false → _is_safe (PyValue.pdict es) = false :=
  ⟨isSafeFuel_eq v fuel h, rfl, fun es k w hm hk => by
    rw [_is_safe]
    exact isSafeEntries_false_of_non_str es k w hm hk⟩

theorem C9_witness :
    pyDepth (PyValue.plist [PyValue.pcallable]) ≤ 2 ∧
    (isSafeFuel 2 (PyValue.plist [PyValue.pcallable]) =
        some (_is_safe (PyValue.plist [PyValue.pcallable])) ∧
      _is_safe PyValue.pcallable = false ∧
      ∀ (es : List (PyValue × PyValue)) (k w : PyValue),
        (k, w) ∈ es → k.isStr = false →
        _is_safe (PyValue.pdict es) = false) :=
  ⟨by decide, C9_classifier_total_on_acyclic (PyValue.plist [PyValue.pcallable])
    2 (by decide)⟩

theorem C9_cyclic_never_returns :
    (∀ fuel, isSafeHeap cyclicHeap fuel 0 = none) ∧
    heapGet cyclicHeap 0 = some (HeapCell.listC [0]) :=
  ⟨isSafeHeap_cyclic, rfl⟩

/-- C5 (amended): the loop's tag dispatch has exactly two outcomes — a
`"numpy"` tag loads an array, and *every other* tag, known or not, falls to
the msgpack branch (restore.py line 87 tests `== "numpy"` with a bare
`else`); no unknown-tag error exists.  The original claim, that an unknown
tag raises CorruptCheckpoint, fails (see the counterexample). -/
theorem C5_non_numpy_tag_decodes_as_msgpack
    (idx : List (List Nat × IdxEntry)) (blob : List Nat)
    (pfx : Option (List Nat)) (var : List Nat) (vars : List (List Nat))
    (target : PyDict) (restored : List (List Nat)) (e : IdxEntry)
    (he : idxLookup idx var = some e)
    (hsha : sha256hex ((blob.drop e.offset).take e.length) = e.sha256)
    (ht : e.type ≠ some numpyTag) :
    restoreLoop idx blob pfx (var :: vars) target restored =
      match unpackb ((blob.drop e.offset).take e.length) with
      | none => .err (.unpackError var) target
      | some v =>
        restoreLoop idx blob pfx vars
          (nsSet target (applyPrefix pfx var) v)
          (restored ++ [applyPrefix pfx var]) := by
  rw [restoreLoop, he]
  simp only
  rw [if_neg (not_not_intro hsha), if_neg ht]

theorem C5_witness :
    idxLookup [([97], (⟨0, 1, sha256hex [7], some [120, 121, 122]⟩ : IdxEntry))]
        [97] = some ⟨0, 1, sha256hex [7], some [120, 121, 122]⟩ ∧
    sha256hex ((([7] : List Nat).drop 0).take 1) = sha256hex [7] ∧
    (some ([120, 121, 122] : List Nat) ≠ some numpyTag) ∧
    restoreLoop [([97], ⟨0, 1, sha256hex [7], some [120, 121, 122]⟩)] [7]
        none [[97]] [] [] =
      match unpackb ((([7] : List Nat).drop 0).take 1) with
      | none => .err (.unpackError [97]) []
      | some v =>
        restoreLoop [([97], ⟨0, 1, sha256hex [7], some [120, 121, 122]⟩)] [7]
          none [] (nsSet [] (applyPrefix none [97]) v)
          ([] ++ [applyPrefix none [97]]) :=
  ⟨rfl, rfl, by decide,
    C5_non_numpy_tag_decodes_as_msgpack
      [([97], ⟨0, 1, sha256hex [7], some [120, 121, 122]⟩)] [7]
      none [97] [] [] [] ⟨0, 1, sha256hex [7], some [120, 121, 122]⟩
      rfl rfl (by decide)⟩

/-- A checkpoint directory whose only object record carries the unknown tag
`"xyz"`; its blob byte is the msgpack encoding of the integer 7. -/
def c5dir : CkptDir :=
  ⟨canonicalManifestJson v1Tag [[97]], [],
    [([97], ⟨0, 1, sha256hex [7], some [120, 121, 122]⟩)],
    [7],
    sha256hex (canonicalManifestJson v1Tag [[97]] ++ [7])⟩

theorem C5_unknown_tag_not_corrupt :
    (idxLookup c5dir.objectsIdx [97]).map IdxEntry.type =
      some (some [120, 121, 122]) ∧
    (some ([120, 121, 122] : List Nat) ≠ some numpyTag) ∧
    (some ([120, 121, 122] : List Nat) ≠ some msgpackTag) ∧
    restore_checkpoint c5dir [] none = .ok [[97]] [([97], PyValue.pint 7)] :=
  ⟨rfl, by decide, by decide, rfl⟩

/-- C7 (amended): any change to the blob bytes of a directory whose checksum
file is the honest outer hash is caught by the outer recomputation — which
runs before the loop, so the target is untouched.  The original claim also
asserted that every single-byte change to `manifest.json` is caught; that
part fails, because the hash covers the canonical *re-serialization* of the
parsed manifest, not its raw bytes, so whitespace mutations survive (see the
counterexample). -/
theorem C7_blob_mutation_checksum_outer (schema : List Nat)
    (vars : List (List Nat)) (hs : ∀ b ∈ schema, b < 256)
    (hv : ∀ k ∈ vars, ∀ b ∈ k, b < 256)
    (meta : List Nat) (idx : List (List Nat × IdxEntry))
    (blob blob2 : List Nat) (hne : blob2 ≠ blob)
    (target : PyDict) (pfx : Option (List Nat)) :
    restore_checkpoint
        ⟨canonicalManifestJson schema vars, meta, idx, blob2,
          sha256hex (canonicalManifestJson schema vars ++ blob)⟩
        target pfx = .err .checksumOuter target := by
  have hcond : sha256hex (canonicalManifestJson schema vars ++ blob2) ≠
      sha256hex (canonicalManifestJson schema vars ++ blob) :=
    fun hc => hne (List.append_cancel_left (sha256hex_inj hc))
  simp only [restore_checkpoint]
  rw [parseManifest_canonical schema vars hs hv]
  simp only [stripBytes_sha256hex]
  rw [if_pos hcond]

theorem C7_witness :
    restore_checkpoint
        ⟨canonicalManifestJson v1Tag [[120]], [], [], [6],
          sha256hex (canonicalManifestJson v1Tag [[120]] ++ [5])⟩
        [] none = .err .checksumOuter [] :=
  C7_blob_mutation_checksum_outer v1Tag [[120]] (by decide) (by decide)
    [] [] [5] [6] (by decide) [] none

/-- The canonical one-variable manifest with its inter-token space at index
10 replaced by a tab: a single-byte mutation of `manifest.json`. -/
def c7manifest : List Nat := (canonicalManifestJson v1Tag [[120]]).set 10 9

/-- A directory carrying the whitespace-mutated manifest but otherwise
honest: blob `[5]` is msgpack for the integer 5, and the checksum file holds
the hash of the *canonical* manifest plus blob. -/
def c7dir : CkptDir :=
  ⟨c7manifest, [],
    [([120], ⟨0, 1, sha256hex [5], some msgpackTag⟩)],
    [5],
    sha256hex (canonicalManifestJson v1Tag [[120]] ++ [5])⟩

theorem C7_manifest_whitespace_mutation_undetected :
    c7manifest ≠ canonicalManifestJson v1Tag [[120]] ∧
    c7manifest.length = (canonicalManifestJson v1Tag [[120]]).length ∧
    (canonicalManifestJson v1Tag [[120]]).get? 10 = some 32 ∧
    c7manifest.get? 10 = some 9 ∧
    restore_checkpoint c7dir [] none = .ok [[120]] [([120], PyValue.pint 5)] :=
  ⟨by decide, by decide, rfl, rfl, rfl⟩

/-- C8 (amended): when any staging step *inside* the `try` of save.py lines
197-232 is made to fail — every write, and the final rename — the call
raises AtomicWrite and the root is exactly as before, with no directory
under the (fresh) address.  The temp-directory fsync is excluded: its
failure is swallowed by the inner `try`/`except Exception: pass` of lines
221-226 (see the counterexample). -/
theorem C8_fault_raises_atomic_write_root_unchanged
    (m : List Nat) (ns : PyDict) (inc : Option (List (List Nat)))
    (root : Root) (st : StageStep) (hst : st ≠ .fsyncTmpDir)
    (idx : List (List Nat × IdxEntry)) (blob : List Nat)
    (he : (unsafeKeys (selectItems ns inc)).isEmpty = true)
    (hb : buildObjects (selectItems ns inc)
        (List.insertionSort keyLe
          ((selectItems ns inc).map (fun kv => kv.1))) 0 = some (idx, blob))
    (hroot : rootLookup root (sha256hex (canonicalManifestJson v1Tag
        (List.insertionSort keyLe
          ((selectItems ns inc).map (fun kv => kv.1))) ++ blob)) = none) :
    save_checkpoint m ns inc root (some st) = .errAtomicWrite st root := by
  simp only [save_checkpoint]
  rw [if_neg (by simp [he])]
  simp only [hb]
  simp only [hroot, Option.isSome_none, Bool.false_eq_true, if_false]

theorem C8_witness :
    save_checkpoint [] [([120], PyValue.pint 1)] none [] (some .rename) =
      .errAtomicWrite .rename [] :=
  C8_fault_raises_atomic_write_root_unchanged [] [([120], PyValue.pint 1)]
    none [] .rename (by decide) _ _ (by decide) rfl rfl

theorem C8_fsync_failure_swallowed :
    ∃ id dir, save_checkpoint [] [([120], PyValue.pint 1)] none []
        (some .fsyncTmpDir) = .ok id [(id, dir)] :=
  ⟨_, _, rfl⟩

theorem C6_witness :
    ∃ id root2,
      save_checkpoint [] [([120], PyValue.pint 3)] none [] none =
        .ok id root2 ∧
      save_checkpoint [99] [([120], PyValue.pint 3)] none root2
        (some .rename) = .ok id root2 := by
  refine ⟨_, _, rfl, ?_⟩
  exact C6_save_idempotent [] [99] [([120], PyValue.pint 3)] none [] _
    none (some .rename) _ rfl

theorem C3_witness :
    SaveOutcome.idOf (save_checkpoint []
        [([97], PyValue.pint 1), ([98], PyValue.pint 2)] none [] none) =
      SaveOutcome.idOf (save_checkpoint [120]
        [([98], PyValue.pint 2), ([97], PyValue.pint 1)] none [] none) :=
  C3_id_depends_only_on_logical_namespace [] [120]
    (List.Perm.swap ([98], PyValue.pint 2) ([97], PyValue.pint 1) [])
    (by decide) [] []

theorem C3_nested_dict_order_changes_id :
    List.Perm [(PyValue.pstr [97], PyValue.pint 1),
               (PyValue.pstr [98], PyValue.pint 2)]
              [(PyValue.pstr [98], PyValue.pint 2),
               (PyValue.pstr [97], PyValue.pint 1)] ∧
    (SaveOutcome.idOf (save_checkpoint []
        [([120], PyValue.pdict [(PyValue.pstr [97], PyValue.pint 1),
                                (PyValue.pstr [98], PyValue.pint 2)])]
        none [] none)).isSome = true ∧
    SaveOutcome.idOf (save_checkpoint []
        [([120], PyValue.pdict [(PyValue.pstr [97], PyValue.pint 1),
                                (PyValue.pstr [98], PyValue.pint 2)])]
        none [] none) ≠
      SaveOutcome.idOf (save_checkpoint []
        [([120], PyValue.pdict [(PyValue.pstr [98], PyValue.pint 2),
                                (PyValue.pstr [97], PyValue.pint 1)])]
        none [] none) :=
  ⟨List.Perm.swap (PyValue.pstr [98], PyValue.pint 2)
    (PyValue.pstr [97], PyValue.pint 1) [], by decide, by decide⟩

theorem C1_roundtrip_witness :
    ∃ id root2 dir target,
      save_checkpoint [] [([120], PyValue.pint 5)] none [] none =
        .ok id root2 ∧
      rootLookup root2 id = some dir ∧
      restore_checkpoint dir [] none =
        .ok (List.insertionSort keyLe
          ([([120], PyValue.pint 5)].map (fun kv => kv.1))) target ∧
      ∀ q, nsLookup target q = nsLookup [([120], PyValue.pint 5)] q := by
  obtain ⟨target, h1, h2⟩ := C1_roundtrip_tuple_free []
    [([120], PyValue.pint 5)] (by decide) (by decide) (by decide)
    _ _ rfl _ rfl
  exact ⟨_, _, _, target, rfl, rfl, h1, h2⟩

theorem C1_tuple_comes_back_as_list :
    _is_safe (PyValue.ptuple [PyValue.pint 1, PyValue.pint 2]) = true ∧
    (∃ id root2 dir,
      save_checkpoint []
          [([120], PyValue.ptuple [PyValue.pint 1, PyValue.pint 2])]
          none [] none = .ok id root2 ∧
      rootLookup root2 id = some dir ∧
      restore_checkpoint dir [] none =
        .ok [[120]]
          [([120], PyValue.plist [PyValue.pint 1, PyValue.pint 2])]) ∧
    PyValue.plist [PyValue.pint 1, PyValue.pint 2] ≠
      PyValue.ptuple [PyValue.pint 1, PyValue.pint 2] :=
  ⟨rfl, ⟨_, _, _, rfl, rfl, rfl⟩, fun h => PyValue.noConfusion h⟩

end PyStele
